import Mathlib

/-!
Verification of the EPUB packaging engine of this repository
(class `EpubSaver` / `EpubVolume`, "llepub-saver v1.0.3").

Shallow embedding conventions:
* JavaScript `Map`s become insertion-ordered association lists (`mget`,
  `mset`, `mhas` below); `Map.set` on an existing key updates in place,
  on a fresh key appends, exactly as JS preserves insertion order.
* `fetch` becomes an explicit network oracle `Network := String → Option Resp`
  (`none` models a rejected promise, `Resp.ok = false` a non-2xx response).
* A numeric template splice `${n}` becomes `natStr n` (decimal rendering);
  `${undefined}` renders as the literal string "undefined", as in JS.
* The DOMParser / XMLSerializer collaborators are embedded as a small
  scanner (`scanNodes`) / printer (`serializeNodes`) over the characters of
  the content string, covering the fragment language the engine actually
  queries: character data, stylesheet `<link>` tags and `<img>` tags.
* The two table-of-contents renderers are embedded at the level of the
  navigation hierarchy they print (`NavEntry` trees): the string surgery
  `navPoints.slice(0, -12)` of `_generateTocNcx`, which removes the
  just-written `</navPoint>` close tag, is exactly the re-opening of the
  parent entry and is embedded as nesting the chapter entry in `children`.
-/

namespace EpubModel

/-- Decimal digit character for a digit value (only applied to `d < 10`). -/
def digitChar : Nat → Char
  | 0 => '0' | 1 => '1' | 2 => '2' | 3 => '3' | 4 => '4'
  | 5 => '5' | 6 => '6' | 7 => '7' | 8 => '8' | _ => '9'

/-- Inverse of `digitChar` on decimal digit characters. -/
def charToDigit : Char → Nat
  | '0' => 0 | '1' => 1 | '2' => 2 | '3' => 3 | '4' => 4
  | '5' => 5 | '6' => 6 | '7' => 7 | '8' => 8 | '9' => 9
  | _ => 0

/-- Fuel-driven decimal rendering of a natural number (most significant digit
first).  The fuel makes the recursion structural so that concrete instances
reduce inside the kernel. -/
def natCharsAux : Nat → Nat → List Char
  | 0, _ => []
  | fuel + 1, n =>
    if n < 10 then [digitChar n]
    else natCharsAux fuel (n / 10) ++ [digitChar (n % 10)]

/-- Decimal digit list of a natural number, as JS `String(n)` produces. -/
def natChars (n : Nat) : List Char := natCharsAux (n + 1) n

/-- Decimal string of a natural number (JS template splice of a number). -/
def natStr (n : Nat) : String := ⟨natChars n⟩

/-- JS template splice of a possibly-undefined number: `${undefined}` renders
as the literal string "undefined". -/
def optNatStr : Option Nat → String
  | none => "undefined"
  | some n => natStr n

/-- Value of a digit list read in base 10 (left fold, most significant first). -/
def digitsVal (l : List Char) : Nat :=
  l.foldl (fun a c => 10 * a + charToDigit c) 0

theorem charToDigit_digitChar {d : Nat} (h : d < 10) :
    charToDigit (digitChar d) = d := by
  interval_cases d <;> rfl

theorem digitChar_isDigit {d : Nat} (h : d < 10) :
    (digitChar d).isDigit = true := by
  interval_cases d <;> rfl

theorem natCharsAux_eq (fuel n : Nat) (h : n < fuel) :
    natCharsAux fuel n =
      (if n < 10 then [digitChar n]
       else natCharsAux (fuel - 1) (n / 10) ++ [digitChar (n % 10)]) := by
  cases fuel with
  | zero => omega
  | succ f =>
    rw [natCharsAux]
    rcases Nat.lt_or_ge n 10 with h10 | h10
    · rw [if_pos h10, if_pos h10]
    · rw [if_neg (Nat.not_lt.mpr h10), if_neg (Nat.not_lt.mpr h10)]
      simp

theorem natCharsAux_fuel_irrel (fuel₁ : Nat) :
    ∀ fuel₂ n, n < fuel₁ → n < fuel₂ →
      natCharsAux fuel₁ n = natCharsAux fuel₂ n := by
  induction fuel₁ using Nat.strong_induction_on with
  | _ f ih =>
    intro fuel₂ n h1 h2
    rw [natCharsAux_eq f n h1, natCharsAux_eq fuel₂ n h2]
    rcases Nat.lt_or_ge n 10 with h10 | h10
    · rw [if_pos h10, if_pos h10]
    · rw [if_neg (Nat.not_lt.mpr h10), if_neg (Nat.not_lt.mpr h10)]
      have hd : n / 10 < n := Nat.div_lt_self (by omega) (by omega)
      have hf : f - 1 < f := by omega
      rw [ih (f - 1) hf (fuel₂ - 1) (n / 10) (by omega) (by omega)]

theorem natChars_eq (n : Nat) :
    natChars n =
      (if n < 10 then [digitChar n]
       else natChars (n / 10) ++ [digitChar (n % 10)]) := by
  rw [natChars, natCharsAux_eq (n + 1) n (Nat.lt_succ_self n)]
  rcases Nat.lt_or_ge n 10 with h10 | h10
  · rw [if_pos h10, if_pos h10]
  · rw [if_neg (Nat.not_lt.mpr h10), if_neg (Nat.not_lt.mpr h10)]
    have hd : n / 10 < n := Nat.div_lt_self (by omega) (by omega)
    have hf : n + 1 - 1 = n := rfl
    rw [hf, natChars, natCharsAux_fuel_irrel n ((n / 10) + 1) (n / 10) hd
      (Nat.lt_succ_self _)]

theorem natChars_all_digit (n : Nat) :
    ∀ c ∈ natChars n, c.isDigit = true := by
  induction n using Nat.strong_induction_on with
  | _ n ih =>
    rw [natChars_eq]
    rcases Nat.lt_or_ge n 10 with h10 | h10
    · rw [if_pos h10]
      intro c hc
      rcases List.mem_singleton.mp hc with rfl
      exact digitChar_isDigit h10
    · rw [if_neg (Nat.not_lt.mpr h10)]
      intro c hc
      rcases List.mem_append.mp hc with hc | hc
      · exact ih (n / 10) (Nat.div_lt_self (by omega) (by omega)) c hc
      · rcases List.mem_singleton.mp hc with rfl
        exact digitChar_isDigit (Nat.mod_lt _ (by omega))

theorem natChars_ne_nil (n : Nat) : natChars n ≠ [] := by
  rw [natChars_eq]
  rcases Nat.lt_or_ge n 10 with h10 | h10
  · rw [if_pos h10]; simp
  · rw [if_neg (Nat.not_lt.mpr h10)]; simp

theorem digitsVal_append_singleton (l : List Char) (c : Char) :
    digitsVal (l ++ [c]) = 10 * digitsVal l + charToDigit c := by
  rw [digitsVal, digitsVal, List.foldl_append]
  rfl

theorem digitsVal_natChars (n : Nat) : digitsVal (natChars n) = n := by
  induction n using Nat.strong_induction_on with
  | _ n ih =>
    rw [natChars_eq]
    rcases Nat.lt_or_ge n 10 with h10 | h10
    · rw [if_pos h10]
      show 10 * 0 + charToDigit (digitChar n) = n
      rw [charToDigit_digitChar h10]
      omega
    · rw [if_neg (Nat.not_lt.mpr h10), digitsVal_append_singleton,
        ih (n / 10) (Nat.div_lt_self (by omega) (by omega)),
        charToDigit_digitChar (Nat.mod_lt _ (by omega))]
      omega

theorem natChars_injective {a b : Nat} (h : natChars a = natChars b) : a = b := by
  have := congrArg digitsVal h
  rwa [digitsVal_natChars, digitsVal_natChars] at this

theorem natStr_injective {a b : Nat} (h : natStr a = natStr b) : a = b :=
  natChars_injective (congrArg String.data h)

theorem strData_append (a b : String) : (a ++ b).data = a.data ++ b.data := rfl

theorem natStr_data (n : Nat) : (natStr n).data = natChars n := rfl

/-- Two lists with a common index at which their leading parts differ cannot
be equal, whatever follows. -/
theorem append_ne_of_get_ne (a b x y : List Char) (i : Nat)
    (ha : i < a.length) (hb : i < b.length)
    (hne : a.get ⟨i, ha⟩ ≠ b.get ⟨i, hb⟩) : a ++ x ≠ b ++ y := by
  intro he
  apply hne
  have h0 : (a ++ x)[i]? = (b ++ y)[i]? := by rw [he]
  rw [List.getElem?_append, List.getElem?_append, if_pos ha, if_pos hb,
    List.getElem?_eq_getElem ha, List.getElem?_eq_getElem hb] at h0
  simpa [List.get_eq_getElem] using h0

/-- Splitting a string at a non-digit separator is unambiguous when the part
before the separator is all digits. -/
theorem digits_sep_inj (a : List Char) : ∀ (b x y : List Char) (p q : Char),
    (∀ c ∈ a, c.isDigit = true) → (∀ c ∈ b, c.isDigit = true) →
    p.isDigit = false → q.isDigit = false →
    a ++ p :: x = b ++ q :: y → a = b ∧ p = q ∧ x = y := by
  induction a with
  | nil =>
    intro b x y p q _ hb hp hq h
    cases b with
    | nil =>
      simp only [List.nil_append] at h
      exact ⟨rfl, (List.cons.injEq _ _ _ _ ▸ h).1, (List.cons.injEq _ _ _ _ ▸ h).2⟩
    | cons d ds =>
      simp only [List.nil_append, List.cons_append, List.cons.injEq] at h
      have hd : d.isDigit = true := hb d (List.mem_cons_self d ds)
      rw [← h.1] at hd
      rw [hp] at hd
      exact absurd hd (by simp)
  | cons c cs ih =>
    intro b x y p q ha hb hp hq h
    cases b with
    | nil =>
      simp only [List.nil_append, List.cons_append, List.cons.injEq] at h
      have hc : c.isDigit = true := ha c (List.mem_cons_self c cs)
      rw [h.1, hq] at hc
      exact absurd hc (by simp)
    | cons d ds =>
      simp only [List.cons_append, List.cons.injEq] at h
      obtain ⟨hcd, htail⟩ := h
      obtain ⟨h1, h2, h3⟩ := ih ds x y p q
        (fun e he => ha e (List.mem_cons_of_mem c he))
        (fun e he => hb e (List.mem_cons_of_mem d he)) hp hq htail
      exact ⟨by rw [hcd, h1], h2, h3⟩

section MapOps

variable {K V : Type} [DecidableEq K]

/-- JS `Map.get`: value of the first entry with the given key. -/
def mget : List (K × V) → K → Option V
  | [], _ => none
  | (k', v) :: rest, k => if k' = k then some v else mget rest k

/-- JS `Map.set`: update the first entry with the key in place, else append. -/
def mset : List (K × V) → K → V → List (K × V)
  | [], k, v => [(k, v)]
  | (k', v') :: rest, k, v =>
    if k' = k then (k, v) :: rest else (k', v') :: mset rest k v

/-- JS `Map.has`. -/
def mhas (m : List (K × V)) (k : K) : Bool := (mget m k).isSome

theorem mget_mset_self (m : List (K × V)) (k : K) (v : V) :
    mget (mset m k v) k = some v := by
  induction m with
  | nil => simp [mset, mget]
  | cons e rest ih =>
    by_cases h : e.1 = k
    · simp [mset, h, mget]
    · simp [mset, h, mget, ih]

theorem mget_mset_ne (m : List (K × V)) (k k' : K) (v : V) (h : k ≠ k') :
    mget (mset m k v) k' = mget m k' := by
  induction m with
  | nil => simp [mset, mget, h]
  | cons e rest ih =>
    rcases e with ⟨ek, ev⟩
    by_cases he : ek = k
    · subst he
      simp [mset, mget, h]
    · by_cases he' : ek = k'
      · simp [mset, mget, he, he', Ne.symm h]
      · simp [mset, mget, he, he', ih]

theorem mget_mem {m : List (K × V)} {k : K} {v : V}
    (h : mget m k = some v) : (k, v) ∈ m := by
  induction m with
  | nil => simp [mget] at h
  | cons e rest ih =>
    rw [mget] at h
    split at h
    · rename_i heq
      cases h
      have he : (k, e.2) = e := by rw [← heq]
      rw [he]
      exact List.mem_cons_self e rest
    · exact List.mem_cons_of_mem _ (ih h)

theorem mhas_false_iff {m : List (K × V)} {k : K} :
    mhas m k = false ↔ mget m k = none := by
  rw [mhas]
  cases mget m k <;> simp

theorem mset_length_of_not_mhas {m : List (K × V)} {k : K} (v : V)
    (h : mhas m k = false) : (mset m k v).length = m.length + 1 := by
  induction m with
  | nil => simp [mset]
  | cons e rest ih =>
    rw [mhas_false_iff] at h
    rw [mget] at h
    split at h
    · cases h
    · rename_i hne
      rw [mset, if_neg hne]
      simp only [List.length_cons]
      rw [ih (mhas_false_iff.mpr h)]

end MapOps

end EpubModel

namespace EpubModel

/-! ### String helpers mirroring the JS string operations used by the source -/

/-- JS `s.startsWith(p)`. -/
def strStartsWith (s p : String) : Bool := p.data.isPrefixOf s.data

/-- JS `s.substring(n)` / drop of the first `n` characters. -/
def strDrop (s : String) (n : Nat) : String := ⟨s.data.drop n⟩

/-- Suffix of `l` just after the first occurrence of `pat`, when present. -/
def splitAfterSeq (pat : List Char) : List Char → Option (List Char)
  | [] => if pat.isEmpty then some [] else none
  | c :: rest =>
    if pat.isPrefixOf (c :: rest) then some ((c :: rest).drop pat.length)
    else splitAfterSeq pat rest

/-- JS `s.includes(pat)`. -/
def containsSeq (pat l : List Char) : Bool := (splitAfterSeq pat l).isSome

/-- Lowercasing of a string, JS `s.toLowerCase()` (ASCII as used here). -/
def strToLower (s : String) : String := ⟨s.data.map Char.toLower⟩

/-- Component after the last dot: JS `s.split('.').pop()` (the whole string
when there is no dot). -/
def lastDotComponent (l : List Char) : List Char :=
  ((l.reverse.takeWhile (fun c => !(c = '.' : Bool))).reverse)

/-! ### The fragment DOM boundary

The engine hands chapter content to the external `DOMParser`, queries
stylesheet `<link>` and `<img>` elements, mutates them and re-serializes.
We embed that collaborator as a scanner over the characters of the content:
character data is kept verbatim (one `text` node per character), an
`<img ...>` tag with a `src` attribute becomes an `img` node, and a
`<link ...>` tag marked `rel="stylesheet"` or `type="text/css"` becomes a
`link` node; any other tag is kept as character data. -/

inductive CNode where
  | text (s : String)
  | link (href : Option String)
  | img (src : Option String)
deriving DecidableEq

/-- Consume characters up to and including the next `>`; returns the tag
body and the remaining input. -/
def takeTag : List Char → List Char × List Char
  | [] => ([], [])
  | '>' :: rest => ([], rest)
  | c :: rest =>
    let r := takeTag rest
    (c :: r.1, r.2)

theorem takeTag_snd_length (l : List Char) : (takeTag l).2.length ≤ l.length := by
  induction l with
  | nil => simp [takeTag]
  | cons c rest ih =>
    rw [takeTag.eq_def]
    split
    · simp
    · rename_i rest' heq
      have h3 : rest = rest' := (List.cons.injEq c rest '>' rest' ▸ heq).2
      subst h3
      simp
    · rename_i c' rest' h1 heq
      have h3 : rest = rest' := (List.cons.injEq c rest c' rest' ▸ heq).2
      subst h3
      simp only [List.length_cons]
      omega

/-- Value of attribute `attr` inside a tag body (`getAttribute`): the text
between `attr="` and the next `"`. -/
def extractAttr (attr : String) (tag : List Char) : Option String :=
  (splitAfterSeq (attr.data ++ ('=' :: '"' :: [])) tag).map
    (fun rest => ⟨rest.takeWhile (fun c => !(c = '"' : Bool))⟩)

/-- Whether a `<link>` tag body is selected by the source's query
`link[rel="stylesheet"], link[type="text/css"]`. -/
def isStylesheetLinkTag (tag : List Char) : Bool :=
  containsSeq ("rel=\"stylesheet\"").data tag ||
  containsSeq ("type=\"text/css\"").data tag

/-- Fuel-driven scanner; fuel bounds the input length so the recursion is
structural and concrete instances reduce in the kernel. -/
def scanAux (net? : Unit) : Nat → List Char → List CNode
  | 0, _ => []
  | _ + 1, [] => []
  | fuel + 1, c :: rest =>
    if c = '<' ∧ ("img".data.isPrefixOf rest ∨ "link".data.isPrefixOf rest) then
      let t := takeTag rest
      let node :=
        if "img".data.isPrefixOf rest then CNode.img (extractAttr "src" t.1)
        else if isStylesheetLinkTag t.1 then CNode.link (extractAttr "href" t.1)
        else CNode.text ⟨'<' :: t.1 ++ ['>']⟩
      node :: scanAux net? fuel t.2
    else
      CNode.text ⟨[c]⟩ :: scanAux net? fuel rest

/-- Parse a content fragment into nodes (the DOMParser boundary). -/
def scanNodes (l : List Char) : List CNode := scanAux () l.length l

/-- Re-serialize nodes (the XMLSerializer / `innerHTML` boundary). -/
def serializeNodes (nodes : List CNode) : String :=
  ⟨nodes.foldr (fun n acc =>
    (match n with
     | CNode.text s => s.data
     | CNode.link none => "<link rel=\"stylesheet\" type=\"text/css\"/>".data
     | CNode.link (some h) =>
       "<link rel=\"stylesheet\" type=\"text/css\" href=\"".data ++ h.data ++ "\"/>".data
     | CNode.img none => "<img/>".data
     | CNode.img (some s) => "<img src=\"".data ++ s.data ++ "\"/>".data) ++ acc) []⟩

/-! ### The JSON string unescape applied by `_processCSSLinksInContent` and
`_downloadImagesFromContent`:
`JSON.parse('"' + content.replace(/"/g, '\\"') + '"')`, falling back to the
original content when parsing fails. -/

/-- Escape every double quote, JS `content.replace(/"/g, '\\"')`. -/
def escapeQuotes (l : List Char) : List Char :=
  l.flatMap (fun c => if c = '"' then ['\\', '"'] else [c])

/-- Hexadecimal digit value. -/
def hexVal (c : Char) : Option Nat :=
  if '0' ≤ c ∧ c ≤ '9' then some (c.toNat - 48)
  else if 'a' ≤ c ∧ c ≤ 'f' then some (c.toNat - 87)
  else if 'A' ≤ c ∧ c ≤ 'F' then some (c.toNat - 55)
  else none

/-- Decode the body of a JSON string literal up to its closing quote,
returning the decoded characters and the input remaining after the quote.
Control characters and invalid escapes are parse errors; a `\uXXXX` escape in
the surrogate range is outside the embedding and also yields `none`. -/
def jsonStrBody : List Char → Option (List Char × List Char)
  | [] => none
  | '"' :: rest => some ([], rest)
  | '\\' :: 'u' :: h1 :: h2 :: h3 :: h4 :: rest =>
    match hexVal h1, hexVal h2, hexVal h3, hexVal h4 with
    | some a, some b, some c, some d =>
      let code := ((a * 16 + b) * 16 + c) * 16 + d
      if code < 0xD800 then
        (jsonStrBody rest).map
          (fun (r : List Char × List Char) => (Char.ofNat code :: r.1, r.2))
      else none
    | _, _, _, _ => none
  | '\\' :: e :: rest =>
    (match e with
     | '"' => some '"'
     | '\\' => some '\\'
     | '/' => some '/'
     | 'b' => some (Char.ofNat 8)
     | 'f' => some (Char.ofNat 12)
     | 'n' => some '\n'
     | 'r' => some (Char.ofNat 13)
     | 't' => some '\t'
     | _ => none).bind
      (fun d => (jsonStrBody rest).map
        (fun (r : List Char × List Char) => (d :: r.1, r.2)))
  | c :: rest =>
    if c.toNat < 32 then none
    else (jsonStrBody rest).map
      (fun (r : List Char × List Char) => (c :: r.1, r.2))

/-- The unescape step: quote-escape the content, wrap it in quotes, parse it
as a JSON string; on any parse failure the original content is kept. -/
def jsUnescapeOr (content : String) : String :=
  match jsonStrBody (escapeQuotes content.data ++ ['"']) with
  | some (dec, []) => ⟨dec⟩
  | _ => content

end EpubModel

namespace EpubModel

/-! ### Network boundary -/

/-- Result of a successful `fetch` promise: HTTP ok-flag, content-type
header, text body and binary body (bytes abstracted to a token). -/
structure Resp where
  ok : Bool
  contentType : Option String
  bodyText : String
  bodyBytes : Nat
deriving DecidableEq

/-- The fetch capability: `none` models a rejected promise (network error). -/
def Network : Type := String → Option Resp

/-- Whether a fetch attempt yielded a response with `ok = true`. -/
def respOk (r : Option Resp) : Bool :=
  match r with
  | some resp => resp.ok
  | none => false

/-- JS truthiness of a possibly-absent string (`undefined` and `""` falsy). -/
def jsTruthyStr : Option String → Bool
  | none => false
  | some s => !(s == "")

/-- JS `a || b` for strings (empty string is falsy). -/
def jsOrStr (a b : String) : String := if a = "" then b else a

/-- JS template splice of a possibly-undefined string. -/
def optStr : Option String → String
  | none => "undefined"
  | some s => s

/-! ### Data model (fields of `EpubSaver` and `EpubVolume`) -/

/-- One metadata entry: value plus serialized attribute set. -/
structure MetaEntry where
  value : String
  options : List (String × String)
deriving DecidableEq

/-- One chapter as stored by `EpubVolume.addChapter`. -/
structure Chapter where
  title : String
  content : String
  ctype : String
  useGlobalCSS : Bool
  cssIdxs : List Nat
  insertTitle : Option Bool
deriving DecidableEq

/-- One volume (`EpubVolume`); its map key is the volume index, the back
reference to the saver is the ambient state. -/
structure Volume where
  title : String
  alwaysShowVolumeTitle : Bool
  createVolumePage : Bool
  volumePageType : String
  chapters : List (Nat × Chapter)
deriving DecidableEq

/-- One indexed stylesheet (`addCSS`). -/
structure CssEntry where
  content : String
  mappath : Option String
deriving DecidableEq

/-- One downloaded image asset. -/
structure ImageData where
  buffer : Nat
  extension : String
  originalUrl : String
deriving DecidableEq

/-- The mutable fields of an `EpubSaver` instance. -/
structure EpubState where
  metadata : List (String × MetaEntry)
  volumes : List (Nat × Volume)
  cssFiles : List (Nat × CssEntry)
  cssMap : List (String × String)
  cssPathMapping : List (String × String)
  images : List (String × ImageData)
  coverBuffer : Option Nat
  coverExtension : Option String
deriving DecidableEq

/-- The built-in i18n tables of the constructor. -/
def i18nTable : List (String × List (String × String)) :=
  [("en", [("cover", "Cover"), ("tableOfContents", "Table of Contents"),
           ("chapters", "Chapters")]),
   ("zh-CN", [("cover", "封面"), ("tableOfContents", "目录"), ("chapters", "章节")]),
   ("zh-TW", [("cover", "封面"), ("tableOfContents", "目錄"), ("chapters", "章節")]),
   ("es", [("cover", "Portada"), ("tableOfContents", "Índice"),
           ("chapters", "Capítulos")]),
   ("fr", [("cover", "Couverture"), ("tableOfContents", "Table des matières"),
           ("chapters", "Chapitres")]),
   ("de", [("cover", "Cover"), ("tableOfContents", "Inhaltsverzeichnis"),
           ("chapters", "Kapitel")]),
   ("ja", [("cover", "表紙"), ("tableOfContents", "目次"), ("chapters", "章")]),
   ("ko", [("cover", "표지"), ("tableOfContents", "목차"), ("chapters", "장")]),
   ("ru", [("cover", "Обложка"), ("tableOfContents", "Содержание"),
           ("chapters", "Главы")]),
   ("pt", [("cover", "Capa"), ("tableOfContents", "Índice"),
           ("chapters", "Capítulos")]),
   ("it", [("cover", "Copertina"), ("tableOfContents", "Indice"),
           ("chapters", "Capitoli")])]

/-- Localized label lookup, source `_t(key)`:
`i18n[language]?.[key] || i18n['en'][key] || key`. -/
def tLabel (st : EpubState) (key : String) : String :=
  let lang := jsOrStr (((mget st.metadata "language").map (·.value)).getD "") "en"
  let primary := ((mget i18nTable lang).bind (fun tbl => mget tbl key)).getD ""
  let enVal := ((mget i18nTable "en").bind (fun tbl => mget tbl key)).getD ""
  jsOrStr primary (jsOrStr enVal key)

/-! ### Registration operations -/

/-- Source `setInfo(key, value, options)`: idempotent upsert. -/
def setInfo (st : EpubState) (key : String) (value : String)
    (options : List (String × String)) : EpubState :=
  { st with metadata := mset st.metadata key ⟨value, options⟩ }

/-- Source `addVolume(idx, title, options)`: later calls with the same index
overwrite.  The option defaults of the `EpubVolume` constructor are
`alwaysShowVolumeTitle = false`, `createVolumePage = false`,
`volumePageType = "navigator"`; callers override them explicitly here. -/
def addVolume (st : EpubState) (idx : Nat) (title : String)
    (alwaysShowVolumeTitle createVolumePage : Bool) (volumePageType : String) :
    EpubState :=
  { st with volumes := (mset st.volumes idx
      ⟨title, alwaysShowVolumeTitle, createVolumePage, volumePageType, []⟩) }

/-- The conflict error thrown by `addCSS`. -/
inductive ConflictError where
  | conflict
deriving DecidableEq

/-- Source `addCSS(idx, content, mappath)`: throws when the index exists,
the new mappath is truthy and differs from the stored one; otherwise the
entry is set (overwriting any previous one). -/
def addCSS (st : EpubState) (idx : Nat) (content : String)
    (mappath : Option String) : Except ConflictError EpubState :=
  match mget st.cssFiles idx with
  | some entry =>
    if jsTruthyStr mappath && !(entry.mappath == mappath) then
      Except.error ConflictError.conflict
    else
      Except.ok { st with cssFiles := mset st.cssFiles idx ⟨content, mappath⟩ }
  | none =>
    Except.ok { st with cssFiles := mset st.cssFiles idx ⟨content, mappath⟩ }

/-- Indexed stylesheet file name `style<k>.css`. -/
def styleFileName (k : Nat) : String := "style" ++ natStr k ++ ".css"

/-- Parse a path of the indexed-naming shape `style<digits>.css`
(the regex `^style\d+\.css$` of `addCSSMap`). -/
def styleNumOf (p : String) : Option Nat :=
  let l := p.data
  if "style".data.isPrefixOf l then
    let r := l.drop 5
    let ds := r.takeWhile Char.isDigit
    let tail := r.dropWhile Char.isDigit
    if ds.isEmpty = false ∧ tail = ".css".data then some (digitsVal ds) else none
  else none

/-- The collision test of the renaming loop in `addCSSMap`:
`this.cssFiles.has(counter) || this.cssMap.has(`style<counter>.css`)`. -/
def cssBusy (st : EpubState) (k : Nat) : Bool :=
  mhas st.cssFiles k || mhas st.cssMap (styleFileName k)

/-- Upper bound on every busy index (used only as fuel for the loop). -/
def cssMaxBusy (st : EpubState) : Nat :=
  max ((st.cssFiles.map (·.1)).foldr max 0)
    ((st.cssMap.filterMap (fun pe => styleNumOf pe.1)).foldr max 0)

/-- The `while` loop of `addCSSMap`, walking up from `counter` to the first
non-busy index; fuel keeps the recursion structural. -/
def findFreeAux (st : EpubState) : Nat → Nat → Nat
  | 0, c => c
  | fuel + 1, c => if cssBusy st c then findFreeAux st fuel (c + 1) else c

/-- First free index at or above `start` in the stylesheet namespace. -/
def findFreeCss (st : EpubState) (start : Nat) : Nat :=
  findFreeAux st (cssMaxBusy st + 2) start

/-- Source normalization of a stylesheet-map path: strip a leading
`Styles/`. -/
def normalizeCssPath (p : String) : String :=
  if strStartsWith p "Styles/" then strDrop p 7 else p

/-- The fatal fetch error of `addCSSMap` (and `cover`). -/
inductive FetchError where
  | fetchFailed
deriving DecidableEq

/-- Source `addCSSMap(pathMap)`.  Entries are processed in order; the path
mapping for an entry is recorded before its source is fetched, and a failed
fetch aborts the loop with the error while keeping every mutation made so
far (the JS `throw` leaves the instance state as is). -/
def addCSSMapGo (net : Network) (st : EpubState) :
    List (String × String) → EpubState × Option FetchError
  | [] => (st, none)
  | (originalPath, urlOrContent) :: rest =>
    let normalizedOriginal := normalizeCssPath originalPath
    let finalPath :=
      if (styleNumOf normalizedOriginal).isSome then
        styleFileName (findFreeCss st 1000)
      else normalizedOriginal
    let st1 := { st with cssPathMapping :=
      (mset st.cssPathMapping originalPath ("../Styles/" ++ finalPath)) }
    if strStartsWith urlOrContent "http" then
      match net urlOrContent with
      | some resp =>
        if resp.ok then
          addCSSMapGo net
            { st1 with cssMap := mset st1.cssMap finalPath resp.bodyText } rest
        else (st1, some FetchError.fetchFailed)
      | none => (st1, some FetchError.fetchFailed)
    else
      addCSSMapGo net
        { st1 with cssMap := mset st1.cssMap finalPath urlOrContent } rest

/-! ### Content normalization at chapter insertion -/

/-- Rewriting pass of `_processCSSLinksInContent` over the queried stylesheet
links: a link whose href is in the mapping is rewritten, one whose href is
absent from the mapping is removed, and a link with no (or empty) href is
left alone. -/
def processLinksNodes (mapping : List (String × String)) :
    List CNode → List CNode
  | [] => []
  | CNode.link (some href) :: rest =>
    if href = "" then CNode.link (some href) :: processLinksNodes mapping rest
    else if mhas mapping href then
      CNode.link (mget mapping href) :: processLinksNodes mapping rest
    else processLinksNodes mapping rest
  | n :: rest => n :: processLinksNodes mapping rest

/-- Source `_processCSSLinksInContent(content)`: JSON unescape, parse,
rewrite stylesheet links through `cssPathMapping`, re-serialize.  (The
full-document and fragment branches of the source differ only in the
wrap/unwrap around the same parse, rewrite and serialize steps.) -/
def processCSSLinksInContent (st : EpubState) (content : String) : String :=
  let decoded := jsUnescapeOr content
  serializeNodes (processLinksNodes st.cssPathMapping (scanNodes decoded.data))

/-- One fetch attempt recorded by the image pipeline: the HTTPS-upgrade
probe or the download of the chosen URL. -/
inductive FetchEvent where
  | upgrade (url : String)
  | download (url : String)
deriving DecidableEq

/-- Result of the image-download pass. -/
structure DownloadResult where
  nodes : List CNode
  images : List (String × ImageData)
  counter : Nat
  events : List FetchEvent
deriving DecidableEq

/-- Whether an `img` src is an absolute http/https URL (the only ones the
source processes). -/
def srcExternal (src : String) : Bool :=
  strStartsWith src "http://" || strStartsWith src "https://"

/-- The HTTPS upgrade of an `http://` URL,
JS `src.replace('http://', 'https://')` on a string starting `http://`. -/
def httpsUpgrade (src : String) : String := "https://" ++ strDrop src 7

/-- Extension inference from the url when the content-type header is
absent: `finalUrl.split('.').pop().toLowerCase().split('?')[0]` when in the
known list, else the default `jpg`. -/
def imgUrlExt (finalUrl : String) : String :=
  let ext : String :=
    ⟨((lastDotComponent finalUrl.data).map Char.toLower).takeWhile
      (fun c => !(c = '?' : Bool))⟩
  if ext = "jpg" ∨ ext = "jpeg" ∨ ext = "png" ∨ ext = "gif" ∨ ext = "webp" ∨
      ext = "svg" then ext
  else "jpg"

/-- Extension inference of `_downloadImagesFromContent`: content-type when
truthy (default `jpg`, note `jpeg` is the fall-through), else the URL
suffix. -/
def imgExtension (resp : Resp) (finalUrl : String) : String :=
  if jsTruthyStr resp.contentType then
    let ct := (resp.contentType.getD "").data
    if containsSeq "png".data ct then "png"
    else if containsSeq "gif".data ct then "gif"
    else if containsSeq "webp".data ct then "webp"
    else if containsSeq "svg".data ct then "svg"
    else "jpg"
  else imgUrlExt finalUrl

/-- Generated image asset file name `image_<counter>.<ext>`. -/
def imageFileName (cnt : Nat) (ext : String) : String :=
  "image_" ++ natStr cnt ++ "." ++ ext

/-- The per-image loop of `_downloadImagesFromContent` over the queried
`img[src]` elements.  For an external URL: one HTTPS-upgrade probe when the
URL is http (an alternate, not a retry), then one download of the chosen
URL; on success the asset is registered under `image_<counter>.<ext>` and
the src rewritten, on failure the element is removed. -/
def downloadImagesGo (net : Network) :
    List CNode → List (String × ImageData) → Nat → DownloadResult
  | [], imgs, cnt => ⟨[], imgs, cnt, []⟩
  | CNode.img (some src) :: rest, imgs, cnt =>
    if srcExternal src then
      let up : Option String :=
        if strStartsWith src "http://" then some (httpsUpgrade src) else none
      let upEvents : List FetchEvent :=
        match up with
        | some u => [FetchEvent.upgrade u]
        | none => []
      let finalUrl :=
        match up with
        | some u => if respOk (net u) then u else src
        | none => src
      match net finalUrl with
      | some resp =>
        if resp.ok then
          let ext := imgExtension resp finalUrl
          let fname := imageFileName cnt ext
          let r := downloadImagesGo net rest
            (mset imgs fname ⟨resp.bodyBytes, ext, src⟩) (cnt + 1)
          ⟨CNode.img (some ("../Images/" ++ fname)) :: r.nodes, r.images,
            r.counter, upEvents ++ FetchEvent.download finalUrl :: r.events⟩
        else
          let r := downloadImagesGo net rest imgs cnt
          ⟨r.nodes, r.images, r.counter,
            upEvents ++ FetchEvent.download finalUrl :: r.events⟩
      | none =>
        let r := downloadImagesGo net rest imgs cnt
        ⟨r.nodes, r.images, r.counter,
          upEvents ++ FetchEvent.download finalUrl :: r.events⟩
    else
      let r := downloadImagesGo net rest imgs cnt
      ⟨CNode.img (some src) :: r.nodes, r.images, r.counter, r.events⟩
  | n :: rest, imgs, cnt =>
    let r := downloadImagesGo net rest imgs cnt
    ⟨n :: r.nodes, r.images, r.counter, r.events⟩

/-- Source `_downloadImagesFromContent(content)`: conditional unescape (only
when the two characters `\u` occur), parse, image pass starting the local
counter at `this.images.size`, re-serialize. -/
def downloadImagesFromContent (net : Network) (st : EpubState)
    (content : String) :
    List (String × ImageData) × String × List FetchEvent :=
  let decoded :=
    if containsSeq "\\u".data content.data then jsUnescapeOr content
    else content
  let r := downloadImagesGo net (scanNodes decoded.data) st.images
    st.images.length
  (r.images, serializeNodes r.nodes, r.events)

/-- Source `EpubVolume.addChapter(idx, title, content, type, useGlobalCSS,
cssIdxs, insertTitle)`: for html/xhtml kinds the content is passed through
the stylesheet-link rewrite and then the image download, and the chapter is
stored unconditionally — image failures never abort the insertion. -/
def addChapter (net : Network) (st : EpubState) (volIdx chapIdx : Nat)
    (title content ctype : String) (useGlobalCSS : Bool) (cssIdxs : List Nat)
    (insertTitle : Option Bool) : EpubState :=
  let isMarkup := ctype == "html" || ctype == "xhtml"
  let c1 := if isMarkup then processCSSLinksInContent st content else content
  let res :=
    if isMarkup then downloadImagesFromContent net st c1
    else (st.images, c1, [])
  let ch : Chapter := ⟨title, res.2.1, ctype, useGlobalCSS, cssIdxs, insertTitle⟩
  { st with
    images := res.1,
    volumes :=
      match mget st.volumes volIdx with
      | some vol =>
        mset st.volumes volIdx { vol with chapters := mset vol.chapters chapIdx ch }
      | none => st.volumes }

end EpubModel

namespace EpubModel

/-! ### Package document (`_generateContentOpf`): manifest and spine -/

/-- Identifier sanitization `replace(/[^a-zA-Z0-9]/g, '-')`. -/
def sanitizeId (s : String) : String :=
  ⟨s.data.map (fun c => if c.isAlphanum then c else '-')⟩

/-- Manifest/spine identifier of a volume page. -/
def volumePageId (v : Nat) : String := "volume-page-" ++ natStr v

/-- Manifest/spine identifier of a chapter. -/
def chapterId (v c : Nat) : String := "chapter-" ++ natStr v ++ "-" ++ natStr c

/-- Manifest identifier of an indexed stylesheet. -/
def cssFileId (idx : Nat) : String := "css" ++ natStr idx

/-- Manifest identifier of a stylesheet-map entry. -/
def cssMapId (p : String) : String := "css-map-" ++ sanitizeId p

/-- Manifest identifier of a downloaded image. -/
def imgFileId (f : String) : String := "img-" ++ sanitizeId f

/-- Href of a chapter file; the chapter index slot renders "undefined" when
no index is at hand (JS `${undefined}`). -/
def chapterHref (v : Nat) (c : Option Nat) : String :=
  "Text/volume" ++ natStr v ++ "_chapter" ++ optNatStr c ++ ".xhtml"

/-- Href of a volume page. -/
def volumeIndexHref (v : Nat) : String :=
  "Text/volume" ++ natStr v ++ "_index.xhtml"

/-- Cover image media type (ternary chain of the source). -/
def coverMimeType (ext : Option String) : String :=
  if ext = some "png" then "image/png"
  else if ext = some "gif" then "image/gif"
  else "image/jpeg"

/-- Image media type (the `switch` of the source, default jpeg). -/
def imageMimeType (ext : String) : String :=
  if ext = "png" then "image/png"
  else if ext = "gif" then "image/gif"
  else if ext = "webp" then "image/webp"
  else if ext = "svg" then "image/svg+xml"
  else "image/jpeg"

/-- Ascending sort by integer key,
JS `Array.from(map.entries()).sort(([a], [b]) => a - b)`. -/
def sortByKey {α : Type} (l : List (Nat × α)) : List (Nat × α) :=
  l.insertionSort (fun a b => a.1 ≤ b.1)

/-- One manifest `<item>`. -/
structure ManifestItem where
  id : String
  href : String
  mediaType : String
deriving DecidableEq

/-- Chapter step of the volumes loop of `_generateContentOpf`: pushes the
chapter item to the manifest and its id to the spine. -/
def opfChapterStep (v : Nat) (acc : List ManifestItem × List String)
    (ce : Nat × Chapter) : List ManifestItem × List String :=
  (acc.1 ++ [⟨chapterId v ce.1, chapterHref v (some ce.1),
    "application/xhtml+xml"⟩],
   acc.2 ++ [chapterId v ce.1])

/-- Volume step of the volumes loop of `_generateContentOpf`: pushes the
volume page (when enabled) and then the sorted chapters, to both lists. -/
def opfVolumeStep (acc : List ManifestItem × List String) (e : Nat × Volume) :
    List ManifestItem × List String :=
  let acc1 :=
    if e.2.createVolumePage then
      (acc.1 ++ [⟨volumePageId e.1, volumeIndexHref e.1,
        "application/xhtml+xml"⟩],
       acc.2 ++ [volumePageId e.1])
    else acc
  (sortByKey e.2.chapters).foldl (opfChapterStep e.1) acc1

/-- The `manifestItems` and `spineItems` lists built by
`_generateContentOpf`, in source order: navigation files, cover
(image + page), downloaded images, indexed stylesheets, stylesheet-map
entries, then volume pages and chapters of the sorted volumes. -/
def generateContentOpf (st : EpubState) : List ManifestItem × List String :=
  let acc0 : List ManifestItem × List String :=
    ([⟨"ncx", "toc.ncx", "application/x-dtbncx+xml"⟩,
      ⟨"nav", "nav.xhtml", "application/xhtml+xml"⟩], [])
  let acc1 :=
    if st.coverBuffer.isSome then
      (acc0.1 ++ [⟨"cover-image", "Images/cover." ++ optStr st.coverExtension,
          coverMimeType st.coverExtension⟩,
        ⟨"cover", "Text/cover.xhtml", "application/xhtml+xml"⟩],
       acc0.2 ++ ["cover"])
    else acc0
  let acc2 := (acc1.1 ++ st.images.map (fun fe =>
      ⟨imgFileId fe.1, "Images/" ++ fe.1, imageMimeType fe.2.extension⟩),
    acc1.2)
  let acc3 := (acc2.1 ++ st.cssFiles.map (fun ce =>
      ⟨cssFileId ce.1, "Styles/" ++ styleFileName ce.1, "text/css"⟩), acc2.2)
  let acc4 := (acc3.1 ++ st.cssMap.map (fun pe =>
      ⟨cssMapId pe.1, "Styles/" ++ pe.1, "text/css"⟩), acc3.2)
  (sortByKey st.volumes).foldl opfVolumeStep acc4

/-- The spine as the specification words it: the cover page first when a
cover was set, then for each volume in ascending index its volume page (when
`createVolumePage`) followed by its chapters in ascending index. -/
def specSpine (st : EpubState) : List String :=
  (if st.coverBuffer.isSome then ["cover"] else []) ++
  (sortByKey st.volumes).flatMap (fun e =>
    (if e.2.createVolumePage then [volumePageId e.1] else []) ++
    (sortByKey e.2.chapters).map (fun ce => chapterId e.1 ce.1))

/-! ### The two tables of contents -/

/-- The runtime error of dereferencing a property of `undefined`. -/
inductive JsError where
  | typeError
deriving DecidableEq

/-- A nested chapter entry of a navigation document. -/
structure NavChild where
  title : String
  link : String
deriving DecidableEq

/-- A top-level entry of a navigation document. -/
structure NavEntry where
  title : String
  link : String
  children : List NavChild
deriving DecidableEq

/-- The navigation entry `_generateTocNcx` prints for one volume.  The
multi-chapter (or `alwaysShowVolumeTitle`) branch nests all sorted chapters;
the single-chapter branch prints a flat entry, except that with
`createVolumePage` it reads `chapters.get(keys[0])` — `chapters.get(undefined)`
followed by `.title` throws when the volume has no chapters — and nests that
sole chapter (the `slice(0, -12)` surgery re-opens the parent entry). -/
def ncxVolEntry (v : Nat) (vol : Volume) : Except JsError NavEntry :=
  let cs := sortByKey vol.chapters
  if vol.chapters.length > 1 || vol.alwaysShowVolumeTitle then
    Except.ok ⟨vol.title,
      (if vol.createVolumePage then volumeIndexHref v
       else chapterHref v ((cs.map (·.1)).head?)),
      cs.map (fun ce => ⟨ce.2.title, chapterHref v (some ce.1)⟩)⟩
  else
    let k? := (vol.chapters.map (·.1)).head?
    let link :=
      if vol.createVolumePage then volumeIndexHref v else chapterHref v k?
    if vol.createVolumePage then
      match k? with
      | none => Except.error JsError.typeError
      | some k =>
        match mget vol.chapters k with
        | none => Except.error JsError.typeError
        | some ch =>
          Except.ok ⟨vol.title, link, [⟨ch.title, chapterHref v (some k)⟩]⟩
    else
      Except.ok ⟨vol.title, link, []⟩

/-- The navigation entry `_generateNavXhtml` prints for one volume; the
branch structure is the nav.xhtml one (hierarchical `<ol>` nesting, and in
the single-chapter `createVolumePage` case `chapters.get(keys[0]).title`,
which throws on an empty volume). -/
def navVolEntry (v : Nat) (vol : Volume) : Except JsError NavEntry :=
  let cs := sortByKey vol.chapters
  if vol.chapters.length > 1 || vol.alwaysShowVolumeTitle then
    Except.ok ⟨vol.title,
      (if vol.createVolumePage then volumeIndexHref v
       else chapterHref v ((cs.map (·.1)).head?)),
      cs.map (fun ce => ⟨ce.2.title, chapterHref v (some ce.1)⟩)⟩
  else
    let k? := (vol.chapters.map (·.1)).head?
    let link :=
      if vol.createVolumePage then volumeIndexHref v else chapterHref v k?
    if vol.createVolumePage then
      match k? with
      | none => Except.error JsError.typeError
      | some k =>
        match mget vol.chapters k with
        | none => Except.error JsError.typeError
        | some ch =>
          Except.ok ⟨vol.title, link, [⟨ch.title, chapterHref v (some k)⟩]⟩
    else
      Except.ok ⟨vol.title, link, []⟩

/-- Hierarchy printed by `_generateTocNcx`: cover entry then one entry per
sorted volume. -/
def generateTocNcx (st : EpubState) : Except JsError (List NavEntry) := do
  let volEntries ← (sortByKey st.volumes).mapM (fun e => ncxVolEntry e.1 e.2)
  pure ((if st.coverBuffer.isSome then
      [(⟨tLabel st "cover", "Text/cover.xhtml", []⟩ : NavEntry)] else []) ++
    volEntries)

/-- Hierarchy printed by `_generateNavXhtml`: cover entry then one entry per
sorted volume. -/
def generateNavXhtml (st : EpubState) : Except JsError (List NavEntry) := do
  let volEntries ← (sortByKey st.volumes).mapM (fun e => navVolEntry e.1 e.2)
  pure ((if st.coverBuffer.isSome then
      [(⟨tLabel st "cover", "Text/cover.xhtml", []⟩ : NavEntry)] else []) ++
    volEntries)

/-- The hierarchy as the specification words it: a volume with more than one
chapter or `alwaysShowVolumeTitle` is a parent entry with its chapters
nested; otherwise a single flat entry with the volume's title linking
directly to its sole chapter, except that with `createVolumePage` the entry
links to the volume page and the sole chapter is nested one level below.
(The parent-entry link of the nested case follows the source; the claim
leaves it open.) -/
def specVolEntry (v : Nat) (vol : Volume) : NavEntry :=
  let cs := sortByKey vol.chapters
  if vol.chapters.length > 1 || vol.alwaysShowVolumeTitle then
    ⟨vol.title,
      (if vol.createVolumePage then volumeIndexHref v
       else chapterHref v ((cs.map (·.1)).head?)),
      cs.map (fun ce => ⟨ce.2.title, chapterHref v (some ce.1)⟩)⟩
  else
    match vol.chapters.head? with
    | some (c, ch) =>
      if vol.createVolumePage then
        ⟨vol.title, volumeIndexHref v, [⟨ch.title, chapterHref v (some c)⟩]⟩
      else
        ⟨vol.title, chapterHref v (some c), []⟩
    | none => ⟨vol.title, chapterHref v none, []⟩

/-- The claim-side hierarchy of the whole document. -/
def specHierarchy (st : EpubState) : List NavEntry :=
  (if st.coverBuffer.isSome then
    [(⟨tLabel st "cover", "Text/cover.xhtml", []⟩ : NavEntry)] else []) ++
  (sortByKey st.volumes).map (fun e => specVolEntry e.1 e.2)

/-! ### Heading insertion of `_generateChapterXhtml` -/

/-- JS truthiness of the tri-state `insertTitle` flag
(`undefined` is falsy). -/
def jsTruthyOpt : Option Bool → Bool
  | none => false
  | some b => b

/-- The heading-insertion condition of the valid-strict-XML branch:
`if (typeof chapter.insertTitle === 'undefined' && chapter.insertTitle)`
guarding `if (!existingHeading || chapter.insertTitle)`. -/
def strictHeadingInserted (insertTitle : Option Bool)
    (bodyHasHeading : Bool) : Bool :=
  if insertTitle.isNone && jsTruthyOpt insertTitle then
    !bodyHasHeading || jsTruthyOpt insertTitle
  else false

/-- The heading-insertion condition of the lenient-HTML fallback branch:
`if (typeof chapter.insertTitle === 'undefined' || chapter.insertTitle)`
guarding `if (!existingHeading || chapter.insertTitle)`. -/
def lenientHeadingInserted (insertTitle : Option Bool)
    (bodyHasHeading : Bool) : Bool :=
  if insertTitle.isNone || jsTruthyOpt insertTitle then
    !bodyHasHeading || jsTruthyOpt insertTitle
  else false

/-- Whether `_generateChapterXhtml` inserts a generated chapter heading into
the body, given which parse branch was taken (the strict parse reporting no
`parsererror`) and whether the body already has an `h1`..`h6`. -/
def chapterHeadingInserted (strictParseOk : Bool) (insertTitle : Option Bool)
    (bodyHasHeading : Bool) : Bool :=
  if strictParseOk then strictHeadingInserted insertTitle bodyHasHeading
  else lenientHeadingInserted insertTitle bodyHasHeading

/-! ### The archive writer (`save`) -/

/-- Per-entry compression mode. -/
inductive Compression where
  | store
  | deflate
deriving DecidableEq

/-- Content of an archive entry; generated documents are carried by their
rendered models. -/
inductive ZipData where
  | text (s : String)
  | bytes (b : Nat)
  | packageDoc (manifest : List ManifestItem) (spine : List String)
  | ncxDoc (entries : List NavEntry)
  | navDoc (entries : List NavEntry)
  | coverDoc
  | volumeDoc (v : Nat)
  | chapterDoc (v c : Nat)
deriving DecidableEq

/-- One archive entry in write order. -/
inductive ZipEntry where
  | file (name : String) (data : ZipData) (comp : Compression)
  | dir (name : String)
deriving DecidableEq

/-- The fixed container descriptor (`_generateContainer`). -/
def containerXml : String :=
  "<?xml version=\"1.0\" encoding=\"UTF-8\"?>\n<container version=\"1.0\" xmlns=\"urn:oasis:names:tc:opendocument:xmlns:container\">\n    <rootfiles>\n        <rootfile full-path=\"OEBPS/content.opf\" media-type=\"application/oebps-package+xml\"/>\n    </rootfiles>\n</container>"

/-- Source `save()`: the mimetype marker is written first with STORE, the
directory skeleton is created, and every other entry is written with
DEFLATE, in source order.  The TOC renderers can throw (see the empty-volume
behavior), in which case no archive is produced. -/
def save (st : EpubState) : Except JsError (List ZipEntry) := do
  let opf := generateContentOpf st
  let tocTree ← generateTocNcx st
  let navTree ← generateNavXhtml st
  pure (
    ZipEntry.file "mimetype" (ZipData.text "application/epub+zip")
       Compression.store ::
    ([ZipEntry.dir "META-INF", ZipEntry.dir "OEBPS", ZipEntry.dir "OEBPS/Text",
     ZipEntry.dir "OEBPS/Styles", ZipEntry.dir "OEBPS/Images",
     ZipEntry.file "META-INF/container.xml" (ZipData.text containerXml)
       Compression.deflate,
     ZipEntry.file "OEBPS/content.opf" (ZipData.packageDoc opf.1 opf.2)
       Compression.deflate,
     ZipEntry.file "OEBPS/toc.ncx" (ZipData.ncxDoc tocTree) Compression.deflate,
     ZipEntry.file "OEBPS/nav.xhtml" (ZipData.navDoc navTree)
       Compression.deflate] ++
    (if st.coverBuffer.isSome then
      [ZipEntry.file ("OEBPS/Images/cover." ++ optStr st.coverExtension)
         (ZipData.bytes (st.coverBuffer.getD 0)) Compression.deflate,
       ZipEntry.file "OEBPS/Text/cover.xhtml" ZipData.coverDoc
         Compression.deflate]
     else []) ++
    st.images.map (fun fe => ZipEntry.file ("OEBPS/Images/" ++ fe.1)
      (ZipData.bytes fe.2.buffer) Compression.deflate) ++
    st.cssFiles.map (fun ce =>
      ZipEntry.file ("OEBPS/Styles/" ++ styleFileName ce.1)
        (ZipData.text ce.2.content) Compression.deflate) ++
    st.cssMap.map (fun pe => ZipEntry.file ("OEBPS/Styles/" ++ pe.1)
      (ZipData.text pe.2) Compression.deflate) ++
    (sortByKey st.volumes).flatMap (fun e =>
      (if e.2.createVolumePage then
        [ZipEntry.file ("OEBPS/Text/volume" ++ natStr e.1 ++ "_index.xhtml")
          (ZipData.volumeDoc e.1) Compression.deflate]
       else []) ++
      (sortByKey e.2.chapters).map (fun ce =>
        ZipEntry.file
          ("OEBPS/Text/volume" ++ natStr e.1 ++ "_chapter" ++ natStr ce.1 ++
            ".xhtml")
          (ZipData.chapterDoc e.1 ce.1) Compression.deflate))))

end EpubModel

namespace EpubModel

/-! ### Normal forms of the generated identifiers and hrefs -/

theorem dash_data : ("-" : String).data = ['-'] := rfl

theorem dot_data : ("." : String).data = ['.'] := rfl

theorem volumePageId_data (v : Nat) :
    (volumePageId v).data = "volume-page-".data ++ natChars v := rfl

theorem cssFileId_data (i : Nat) :
    (cssFileId i).data = "css".data ++ natChars i := rfl

theorem cssMapId_data (p : String) :
    (cssMapId p).data = "css-map-".data ++ (sanitizeId p).data := rfl

theorem imgFileId_data (f : String) :
    (imgFileId f).data = "img-".data ++ (sanitizeId f).data := rfl

theorem chapterId_data (v c : Nat) :
    (chapterId v c).data =
      "chapter-".data ++ (natChars v ++ '-' :: natChars c) := by
  simp only [chapterId, strData_append, natStr_data, dash_data,
    List.append_assoc, List.singleton_append]

theorem str_ne_of_data_ne {s t : String} (h : s.data ≠ t.data) : s ≠ t :=
  fun he => h (congrArg String.data he)

/-- A literal string never equals a literal-prefixed string when the two
literals differ at a common index. -/
theorem lit_ne_append (p q : String) (y : List Char) (i : Nat)
    (hi : i < p.data.length) (hj : i < q.data.length)
    (hne : p.data.get ⟨i, hi⟩ ≠ q.data.get ⟨i, hj⟩) :
    p.data ≠ q.data ++ y := by
  intro h
  rw [← List.append_nil p.data] at h
  exact append_ne_of_get_ne _ _ _ _ i hi hj hne h

end EpubModel

namespace EpubModel

/-! ### Decomposition of `generateContentOpf` -/

/-- Items the volumes loop appends to the manifest for one volume. -/
def volManifestItems (e : Nat × Volume) : List ManifestItem :=
  (if e.2.createVolumePage then
    [⟨volumePageId e.1, volumeIndexHref e.1, "application/xhtml+xml"⟩]
   else []) ++
  (sortByKey e.2.chapters).map (fun ce =>
    ⟨chapterId e.1 ce.1, chapterHref e.1 (some ce.1), "application/xhtml+xml"⟩)

/-- Ids the volumes loop appends to both manifest and spine for one volume. -/
def volItemIds (e : Nat × Volume) : List String :=
  (if e.2.createVolumePage then [volumePageId e.1] else []) ++
  (sortByKey e.2.chapters).map (fun ce => chapterId e.1 ce.1)

/-- The manifest before the volumes loop runs. -/
def manifestBase (st : EpubState) : List ManifestItem :=
  [⟨"ncx", "toc.ncx", "application/x-dtbncx+xml"⟩,
   ⟨"nav", "nav.xhtml", "application/xhtml+xml"⟩] ++
  (if st.coverBuffer.isSome then
    [⟨"cover-image", "Images/cover." ++ optStr st.coverExtension,
       coverMimeType st.coverExtension⟩,
     ⟨"cover", "Text/cover.xhtml", "application/xhtml+xml"⟩]
   else []) ++
  st.images.map (fun fe =>
    ⟨imgFileId fe.1, "Images/" ++ fe.1, imageMimeType fe.2.extension⟩) ++
  st.cssFiles.map (fun ce =>
    ⟨cssFileId ce.1, "Styles/" ++ styleFileName ce.1, "text/css"⟩) ++
  st.cssMap.map (fun pe => ⟨cssMapId pe.1, "Styles/" ++ pe.1, "text/css"⟩)

theorem volManifestItems_ids (e : Nat × Volume) :
    (volManifestItems e).map (·.id) = volItemIds e := by
  rcases e with ⟨v, vol⟩
  by_cases h : vol.createVolumePage <;>
    simp [volManifestItems, volItemIds, h, List.map_map, Function.comp]

theorem opfChapterStep_foldl (v : Nat) (cs : List (Nat × Chapter)) :
    ∀ acc : List ManifestItem × List String,
      cs.foldl (opfChapterStep v) acc =
        (acc.1 ++ cs.map (fun ce =>
            ⟨chapterId v ce.1, chapterHref v (some ce.1),
              "application/xhtml+xml"⟩),
         acc.2 ++ cs.map (fun ce => chapterId v ce.1)) := by
  induction cs with
  | nil => intro acc; simp
  | cons ce rest ih =>
    intro acc
    rw [List.foldl_cons, ih]
    simp [opfChapterStep]

theorem opfVolumeStep_eq (acc : List ManifestItem × List String)
    (e : Nat × Volume) :
    opfVolumeStep acc e = (acc.1 ++ volManifestItems e, acc.2 ++ volItemIds e) := by
  rcases e with ⟨v, vol⟩
  rw [opfVolumeStep, opfChapterStep_foldl]
  by_cases h : vol.createVolumePage <;>
    simp [h, volManifestItems, volItemIds]

theorem foldl_opfVolumeStep (l : List (Nat × Volume)) :
    ∀ acc : List ManifestItem × List String,
      l.foldl opfVolumeStep acc =
        (acc.1 ++ l.flatMap volManifestItems, acc.2 ++ l.flatMap volItemIds) := by
  induction l with
  | nil => intro acc; simp
  | cons e rest ih =>
    intro acc
    rw [List.foldl_cons, opfVolumeStep_eq, ih]
    simp

theorem generateContentOpf_eq (st : EpubState) :
    generateContentOpf st =
      (manifestBase st ++ (sortByKey st.volumes).flatMap volManifestItems,
       (if st.coverBuffer.isSome then ["cover"] else []) ++
         (sortByKey st.volumes).flatMap volItemIds) := by
  rw [generateContentOpf, foldl_opfVolumeStep]
  by_cases h : st.coverBuffer.isSome <;>
    simp [h, manifestBase]

theorem spine_eq_specSpine (st : EpubState) :
    (generateContentOpf st).2 = specSpine st := by
  rw [generateContentOpf_eq]
  rfl

end EpubModel

namespace EpubModel

/-! ### Disjointness of the generated identifiers -/

theorem cover_ne_imgFileId (f : String) : "cover" ≠ imgFileId f := by
  apply str_ne_of_data_ne
  rw [imgFileId_data]
  exact lit_ne_append "cover" "img-" _ 0 (by decide) (by decide) (by decide)

theorem cover_ne_cssFileId (i : Nat) : "cover" ≠ cssFileId i := by
  apply str_ne_of_data_ne
  rw [cssFileId_data]
  exact lit_ne_append "cover" "css" _ 1 (by decide) (by decide) (by decide)

theorem cover_ne_cssMapId (p : String) : "cover" ≠ cssMapId p := by
  apply str_ne_of_data_ne
  rw [cssMapId_data]
  exact lit_ne_append "cover" "css-map-" _ 1 (by decide) (by decide) (by decide)

theorem cover_ne_volumePageId (v : Nat) : "cover" ≠ volumePageId v := by
  apply str_ne_of_data_ne
  rw [volumePageId_data]
  exact lit_ne_append "cover" "volume-page-" _ 0 (by decide) (by decide)
    (by decide)

theorem cover_ne_chapterId (v c : Nat) : "cover" ≠ chapterId v c := by
  apply str_ne_of_data_ne
  rw [chapterId_data]
  exact lit_ne_append "cover" "chapter-" _ 1 (by decide) (by decide) (by decide)

theorem volumePageId_ne_ncx (v : Nat) : volumePageId v ≠ "ncx" := by
  apply str_ne_of_data_ne
  rw [volumePageId_data]
  exact fun h => lit_ne_append "ncx" "volume-page-" _ 0 (by decide) (by decide)
    (by decide) h.symm

theorem volumePageId_ne_nav (v : Nat) : volumePageId v ≠ "nav" := by
  apply str_ne_of_data_ne
  rw [volumePageId_data]
  exact fun h => lit_ne_append "nav" "volume-page-" _ 0 (by decide) (by decide)
    (by decide) h.symm

theorem volumePageId_ne_coverImage (v : Nat) :
    volumePageId v ≠ "cover-image" := by
  apply str_ne_of_data_ne
  rw [volumePageId_data]
  exact fun h => lit_ne_append "cover-image" "volume-page-" _ 0 (by decide)
    (by decide) (by decide) h.symm

theorem volumePageId_ne_imgFileId (v : Nat) (f : String) :
    volumePageId v ≠ imgFileId f := by
  apply str_ne_of_data_ne
  rw [volumePageId_data, imgFileId_data]
  exact append_ne_of_get_ne _ _ _ _ 0 (by decide) (by decide) (by decide)

theorem volumePageId_ne_cssFileId (v i : Nat) :
    volumePageId v ≠ cssFileId i := by
  apply str_ne_of_data_ne
  rw [volumePageId_data, cssFileId_data]
  exact append_ne_of_get_ne _ _ _ _ 0 (by decide) (by decide) (by decide)

theorem volumePageId_ne_cssMapId (v : Nat) (p : String) :
    volumePageId v ≠ cssMapId p := by
  apply str_ne_of_data_ne
  rw [volumePageId_data, cssMapId_data]
  exact append_ne_of_get_ne _ _ _ _ 0 (by decide) (by decide) (by decide)

theorem volumePageId_ne_chapterId (v v' c' : Nat) :
    volumePageId v ≠ chapterId v' c' := by
  apply str_ne_of_data_ne
  rw [volumePageId_data, chapterId_data]
  exact append_ne_of_get_ne _ _ _ _ 0 (by decide) (by decide) (by decide)

theorem chapterId_ne_ncx (v c : Nat) : chapterId v c ≠ "ncx" := by
  apply str_ne_of_data_ne
  rw [chapterId_data]
  exact fun h => lit_ne_append "ncx" "chapter-" _ 0 (by decide) (by decide)
    (by decide) h.symm

theorem chapterId_ne_nav (v c : Nat) : chapterId v c ≠ "nav" := by
  apply str_ne_of_data_ne
  rw [chapterId_data]
  exact fun h => lit_ne_append "nav" "chapter-" _ 0 (by decide) (by decide)
    (by decide) h.symm

theorem chapterId_ne_coverImage (v c : Nat) : chapterId v c ≠ "cover-image" := by
  apply str_ne_of_data_ne
  rw [chapterId_data]
  exact fun h => lit_ne_append "cover-image" "chapter-" _ 1 (by decide)
    (by decide) (by decide) h.symm

theorem chapterId_ne_imgFileId (v c : Nat) (f : String) :
    chapterId v c ≠ imgFileId f := by
  apply str_ne_of_data_ne
  rw [chapterId_data, imgFileId_data]
  exact append_ne_of_get_ne _ _ _ _ 0 (by decide) (by decide) (by decide)

theorem chapterId_ne_cssFileId (v c i : Nat) : chapterId v c ≠ cssFileId i := by
  apply str_ne_of_data_ne
  rw [chapterId_data, cssFileId_data]
  exact append_ne_of_get_ne _ _ _ _ 1 (by decide) (by decide) (by decide)

theorem chapterId_ne_cssMapId (v c : Nat) (p : String) :
    chapterId v c ≠ cssMapId p := by
  apply str_ne_of_data_ne
  rw [chapterId_data, cssMapId_data]
  exact append_ne_of_get_ne _ _ _ _ 1 (by decide) (by decide) (by decide)

theorem volumePageId_inj {v v' : Nat} (h : volumePageId v = volumePageId v') :
    v = v' := by
  have hd := congrArg String.data h
  rw [volumePageId_data, volumePageId_data] at hd
  exact natChars_injective (List.append_cancel_left hd)

theorem chapterId_inj {v c v' c' : Nat} (h : chapterId v c = chapterId v' c') :
    v = v' ∧ c = c' := by
  have hd := congrArg String.data h
  rw [chapterId_data, chapterId_data] at hd
  have h2 := List.append_cancel_left hd
  obtain ⟨h3, -, h5⟩ := digits_sep_inj (natChars v) (natChars v') (natChars c)
    (natChars c') '-' '-' (natChars_all_digit v) (natChars_all_digit v')
    (by decide) (by decide) h2
  exact ⟨natChars_injective h3, natChars_injective h5⟩

end EpubModel

namespace EpubModel

/-! ### Sorting and counting facts -/

theorem sortByKey_perm {α : Type} (l : List (Nat × α)) : (sortByKey l).Perm l :=
  List.perm_insertionSort _ l

theorem mem_sortByKey {α : Type} {l : List (Nat × α)} {e : Nat × α} :
    e ∈ sortByKey l ↔ e ∈ l := (sortByKey_perm l).mem_iff

instance sortKeyTotal {α : Type} :
    IsTotal (Nat × α) (fun a b => a.1 ≤ b.1) :=
  ⟨fun a b => Nat.le_total a.1 b.1⟩

instance sortKeyTrans {α : Type} :
    IsTrans (Nat × α) (fun a b => a.1 ≤ b.1) :=
  ⟨fun _ _ _ hab hbc => Nat.le_trans hab hbc⟩

theorem sortByKey_keys_sorted {α : Type} (l : List (Nat × α)) :
    List.Sorted (· ≤ ·) ((sortByKey l).map (·.1)) := by
  have h := List.sorted_insertionSort (fun (a b : Nat × α) => a.1 ≤ b.1) l
  exact List.Pairwise.map _ (fun a b hab => hab) h

/-- The document wellformedness the JS `Map`s guarantee: volume keys are
distinct and each volume's chapter keys are distinct. -/
def WfState (st : EpubState) : Prop :=
  (st.volumes.map (·.1)).Nodup ∧
  ∀ e ∈ st.volumes, (e.2.chapters.map (·.1)).Nodup

instance (st : EpubState) : Decidable (WfState st) := by
  unfold WfState
  infer_instance

theorem count_flatMap_single {α : Type} [DecidableEq α] (l : List α)
    (f : α → List String) (t : String) (x : α)
    (hnodup : l.Nodup) (hx : x ∈ l)
    (hcount : ((f x).count t) = 1)
    (hothers : ∀ y ∈ l, y ≠ x → ((f y).count t) = 0) :
    ((l.flatMap f).count t) = 1 := by
  induction l with
  | nil => cases hx
  | cons e rest ih =>
    rw [List.flatMap_cons, List.count_append]
    rcases List.mem_cons.mp hx with rfl | hx'
    · rw [hcount]
      have hnot : x ∉ rest := (List.nodup_cons.mp hnodup).1
      have hz : ((rest.flatMap f).count t) = 0 := by
        rw [List.count_eq_zero]
        intro hmem
        rcases List.mem_flatMap.mp hmem with ⟨y, hy, hty⟩
        have hyx : y ≠ x := fun heq => hnot (heq ▸ hy)
        have h0 := hothers y (List.mem_cons_of_mem _ hy) hyx
        rw [List.count_eq_zero] at h0
        exact h0 hty
      rw [hz]
    · have hex : e ≠ x := fun heq => (List.nodup_cons.mp hnodup).1 (heq ▸ hx')
      rw [hothers e (List.mem_cons_self e rest) hex,
        ih (List.nodup_cons.mp hnodup).2 hx'
          (fun y hy hyx => hothers y (List.mem_cons_of_mem _ hy) hyx)]

theorem count_chapterId_map (v c : Nat) (cs : List (Nat × Chapter)) :
    ((cs.map (fun ce => chapterId v ce.1)).count (chapterId v c)) =
      ((cs.map (·.1)).count c) := by
  induction cs with
  | nil => rfl
  | cons ce rest ih =>
    simp only [List.map_cons, List.count_cons, ih]
    by_cases h : ce.1 = c
    · simp [h]
    · have hne : chapterId v ce.1 ≠ chapterId v c :=
        fun he => h (chapterId_inj he).2
      simp [h, hne]

theorem count_volItemIds_volumePageId (v : Nat) (e : Nat × Volume) :
    ((volItemIds e).count (volumePageId v)) =
      if e.1 = v ∧ e.2.createVolumePage = true then 1 else 0 := by
  rcases e with ⟨v', vol⟩
  rw [volItemIds, List.count_append]
  have hch : (((sortByKey vol.chapters).map
      (fun ce => chapterId v' ce.1)).count (volumePageId v)) = 0 := by
    rw [List.count_eq_zero]
    intro hmem
    rcases List.mem_map.mp hmem with ⟨ce, _, hid⟩
    exact volumePageId_ne_chapterId v v' ce.1 hid.symm
  rw [hch]
  by_cases hcv : vol.createVolumePage
  · by_cases hv : v' = v
    · subst hv
      simp [hcv]
    · have hne : volumePageId v ≠ volumePageId v' :=
        fun he => hv (volumePageId_inj he).symm
      have hz : (([volumePageId v'] : List String).count (volumePageId v)) = 0 := by
        rw [List.count_eq_zero]
        simp [hne]
      simp [hcv, hv, hz]
  · simp [hcv]

theorem count_volItemIds_chapterId (v c : Nat) (e : Nat × Volume) :
    ((volItemIds e).count (chapterId v c)) =
      if e.1 = v then ((e.2.chapters.map (·.1)).count c) else 0 := by
  rcases e with ⟨v', vol⟩
  rw [volItemIds, List.count_append]
  have hvpne : chapterId v c ≠ volumePageId v' :=
    fun he => volumePageId_ne_chapterId v' v c he.symm
  have hvp : ((if vol.createVolumePage then [volumePageId v'] else
      ([] : List String)).count (chapterId v c)) = 0 := by
    by_cases h : vol.createVolumePage
    · rw [if_pos h, List.count_eq_zero]
      simp [hvpne]
    · rw [if_neg h]
      rfl
  rw [hvp]
  by_cases h : v' = v
  · subst h
    rw [count_chapterId_map]
    have hp : (((sortByKey vol.chapters).map (·.1)).Perm
        (vol.chapters.map (·.1))) := (sortByKey_perm _).map _
    simp [hp.count_eq]
  · have hz : (((sortByKey vol.chapters).map
        (fun ce => chapterId v' ce.1)).count (chapterId v c)) = 0 := by
      rw [List.count_eq_zero]
      intro hmem
      rcases List.mem_map.mp hmem with ⟨ce, _, hid⟩
      exact h (chapterId_inj hid).1
    simp [h, hz]

theorem count_volItemIds_cover (e : Nat × Volume) :
    ((volItemIds e).count "cover") = 0 := by
  rcases e with ⟨v', vol⟩
  rw [List.count_eq_zero]
  intro hmem
  rw [volItemIds] at hmem
  rcases List.mem_append.mp hmem with h | h
  · by_cases hc : vol.createVolumePage
    · simp [hc] at h
      exact cover_ne_volumePageId v' h
    · simp [hc] at h
  · rcases List.mem_map.mp h with ⟨ce, _, hid⟩
    exact cover_ne_chapterId v' ce.1 hid.symm

theorem manifestBase_ids (st : EpubState) :
    (manifestBase st).map (·.id) =
      ["ncx", "nav"] ++
      (if st.coverBuffer.isSome then ["cover-image", "cover"] else []) ++
      st.images.map (fun fe => imgFileId fe.1) ++
      st.cssFiles.map (fun ce => cssFileId ce.1) ++
      st.cssMap.map (fun pe => cssMapId pe.1) := by
  rw [manifestBase]
  by_cases hc : st.coverBuffer.isSome
  · simp only [hc, if_true, List.map_append, List.map_map]
    rfl
  · simp only [hc, if_false, Bool.false_eq_true, List.map_append, List.map_map]
    rfl

theorem count_manifestBase (st : EpubState) (t : String)
    (h1 : t ≠ "ncx") (h2 : t ≠ "nav") (h3 : t ≠ "cover-image")
    (h4 : ∀ f, t ≠ imgFileId f) (h5 : ∀ i, t ≠ cssFileId i)
    (h6 : ∀ p, t ≠ cssMapId p) :
    (((manifestBase st).map (·.id)).count t) =
      if t = "cover" ∧ st.coverBuffer.isSome = true then 1 else 0 := by
  rw [manifestBase_ids]
  rw [List.count_append, List.count_append, List.count_append,
    List.count_append]
  have hz1 : ((["ncx", "nav"] : List String).count t) = 0 := by
    rw [List.count_eq_zero]
    simp [h1, h2]
  have hz3 : ((st.images.map (fun fe => imgFileId fe.1)).count t) = 0 := by
    rw [List.count_eq_zero]
    intro hmem
    rcases List.mem_map.mp hmem with ⟨fe, _, hid⟩
    exact h4 fe.1 hid.symm
  have hz4 : ((st.cssFiles.map (fun ce => cssFileId ce.1)).count t) = 0 := by
    rw [List.count_eq_zero]
    intro hmem
    rcases List.mem_map.mp hmem with ⟨ce, _, hid⟩
    exact h5 ce.1 hid.symm
  have hz5 : ((st.cssMap.map (fun pe => cssMapId pe.1)).count t) = 0 := by
    rw [List.count_eq_zero]
    intro hmem
    rcases List.mem_map.mp hmem with ⟨pe, _, hid⟩
    exact h6 pe.1 hid.symm
  rw [hz1, hz3, hz4, hz5]
  by_cases hc : st.coverBuffer.isSome
  · by_cases ht : t = "cover"
    · subst ht
      simp [hc]
    · have : ((["cover-image", "cover"] : List String).count t) = 0 := by
        rw [List.count_eq_zero]
        simp [h3, ht]
      simp [hc, ht, this]
  · simp [hc]

theorem manifestIds_eq (st : EpubState) :
    (generateContentOpf st).1.map (·.id) =
      (manifestBase st).map (·.id) ++
        (sortByKey st.volumes).flatMap volItemIds := by
  rw [generateContentOpf_eq]
  simp only [List.map_append]
  congr 1
  induction (sortByKey st.volumes) with
  | nil => rfl
  | cons e rest ih => simp [List.flatMap_cons, volManifestItems_ids, ih]

theorem mem_specSpine_cases {st : EpubState} {t : String}
    (h : t ∈ specSpine st) :
    (t = "cover" ∧ st.coverBuffer.isSome = true) ∨
    (∃ e ∈ sortByKey st.volumes,
      (e.2.createVolumePage = true ∧ t = volumePageId e.1) ∨
      (∃ ce ∈ sortByKey e.2.chapters, t = chapterId e.1 ce.1)) := by
  rw [specSpine] at h
  rcases List.mem_append.mp h with h | h
  · left
    by_cases hc : st.coverBuffer.isSome
    · simp [hc] at h
      exact ⟨h, hc⟩
    · simp [hc] at h
  · right
    rcases List.mem_flatMap.mp h with ⟨e, he, ht⟩
    refine ⟨e, he, ?_⟩
    rcases List.mem_append.mp ht with ht | ht
    · left
      by_cases hc : e.2.createVolumePage
      · simp [hc] at ht
        exact ⟨hc, ht⟩
      · simp [hc] at ht
    · right
      rcases List.mem_map.mp ht with ⟨ce, hce, hid⟩
      exact ⟨ce, hce, hid.symm⟩

end EpubModel

namespace EpubModel

/-- C1: in the generated package document, every idref listed in the spine
has exactly one manifest item with that identifier; no indexed-stylesheet,
stylesheet-map, image-asset or cover-image manifest item ever appears in the
spine; and the spine is exactly: the cover page first (when a cover was
set), then for each volume in ascending index its volume page (when
`createVolumePage`) followed by its chapters in ascending index — the two
sorted-key conjuncts making the ascending orders explicit. -/
theorem spine_manifest_agreement (st : EpubState) (hwf : WfState st) :
    (∀ t ∈ (generateContentOpf st).2,
      (((generateContentOpf st).1.map (·.id)).count t) = 1) ∧
    (∀ i : Nat, cssFileId i ∉ (generateContentOpf st).2) ∧
    (∀ p : String, cssMapId p ∉ (generateContentOpf st).2) ∧
    (∀ f : String, imgFileId f ∉ (generateContentOpf st).2) ∧
    ("cover-image" : String) ∉ (generateContentOpf st).2 ∧
    (generateContentOpf st).2 = specSpine st ∧
    List.Sorted (· ≤ ·) ((sortByKey st.volumes).map (·.1)) ∧
    (∀ e ∈ sortByKey st.volumes,
      List.Sorted (· ≤ ·) ((sortByKey e.2.chapters).map (·.1))) := by
  have hspine := spine_eq_specSpine st
  have hkeys : ((sortByKey st.volumes).map (·.1)).Nodup :=
    (((sortByKey_perm st.volumes).map (·.1)).nodup_iff).mpr hwf.1
  have hnodupvols : (sortByKey st.volumes).Nodup := hkeys.of_map
  have hinj := List.inj_on_of_nodup_map hkeys
  refine ⟨?_, ?_, ?_, ?_, ?_, hspine, sortByKey_keys_sorted st.volumes,
    fun e _ => sortByKey_keys_sorted e.2.chapters⟩
  · intro t ht
    rw [hspine] at ht
    rw [manifestIds_eq, List.count_append]
    rcases mem_specSpine_cases ht with ⟨ht1, hcov⟩ | ⟨e, he, hcase⟩
    · subst ht1
      rw [count_manifestBase st "cover" (by decide) (by decide) (by decide)
        (fun f => cover_ne_imgFileId f) (fun i => cover_ne_cssFileId i)
        (fun p => cover_ne_cssMapId p)]
      rw [if_pos ⟨rfl, hcov⟩]
      have hz : (((sortByKey st.volumes).flatMap volItemIds).count "cover") = 0 := by
        rw [List.count_eq_zero]
        intro hm
        rcases List.mem_flatMap.mp hm with ⟨e, _, hte⟩
        exact (List.count_eq_zero.mp (count_volItemIds_cover e)) hte
      rw [hz]
    · rcases hcase with ⟨hcvp, ht1⟩ | ⟨ce, hce, ht1⟩
      · subst ht1
        rw [count_manifestBase st (volumePageId e.1) (volumePageId_ne_ncx e.1)
          (volumePageId_ne_nav e.1) (volumePageId_ne_coverImage e.1)
          (fun f => volumePageId_ne_imgFileId e.1 f)
          (fun i => volumePageId_ne_cssFileId e.1 i)
          (fun p => volumePageId_ne_cssMapId e.1 p)]
        rw [if_neg (fun hand => cover_ne_volumePageId e.1 hand.1.symm)]
        rw [count_flatMap_single (sortByKey st.volumes) volItemIds
          (volumePageId e.1) e hnodupvols he
          (by rw [count_volItemIds_volumePageId]
              exact if_pos ⟨rfl, hcvp⟩)
          (fun y hy hyne => by
            rw [count_volItemIds_volumePageId]
            exact if_neg (fun hand => hyne (hinj hy he hand.1)))]
      · subst ht1
        have hckeys : (e.2.chapters.map (·.1)).Nodup :=
          hwf.2 e (mem_sortByKey.mp he)
        have hcmem : ce.1 ∈ e.2.chapters.map (·.1) :=
          List.mem_map.mpr ⟨ce, mem_sortByKey.mp hce, rfl⟩
        rw [count_manifestBase st (chapterId e.1 ce.1)
          (chapterId_ne_ncx e.1 ce.1) (chapterId_ne_nav e.1 ce.1)
          (chapterId_ne_coverImage e.1 ce.1)
          (fun f => chapterId_ne_imgFileId e.1 ce.1 f)
          (fun i => chapterId_ne_cssFileId e.1 ce.1 i)
          (fun p => chapterId_ne_cssMapId e.1 ce.1 p)]
        rw [if_neg (fun hand => cover_ne_chapterId e.1 ce.1 hand.1.symm)]
        rw [count_flatMap_single (sortByKey st.volumes) volItemIds
          (chapterId e.1 ce.1) e hnodupvols he
          (by rw [count_volItemIds_chapterId, if_pos rfl]
              exact List.count_eq_one_of_mem hckeys hcmem)
          (fun y hy hyne => by
            rw [count_volItemIds_chapterId]
            exact if_neg (fun hand => hyne (hinj hy he hand)))]
  · intro i hmem
    rw [hspine] at hmem
    rcases mem_specSpine_cases hmem with ⟨heq, -⟩ | ⟨e, -, hcase⟩
    · exact cover_ne_cssFileId i heq.symm
    · rcases hcase with ⟨-, heq⟩ | ⟨ce, -, heq⟩
      · exact volumePageId_ne_cssFileId e.1 i heq.symm
      · exact chapterId_ne_cssFileId e.1 ce.1 i heq.symm
  · intro p hmem
    rw [hspine] at hmem
    rcases mem_specSpine_cases hmem with ⟨heq, -⟩ | ⟨e, -, hcase⟩
    · exact cover_ne_cssMapId p heq.symm
    · rcases hcase with ⟨-, heq⟩ | ⟨ce, -, heq⟩
      · exact volumePageId_ne_cssMapId e.1 p heq.symm
      · exact chapterId_ne_cssMapId e.1 ce.1 p heq.symm
  · intro f hmem
    rw [hspine] at hmem
    rcases mem_specSpine_cases hmem with ⟨heq, -⟩ | ⟨e, -, hcase⟩
    · exact cover_ne_imgFileId f heq.symm
    · rcases hcase with ⟨-, heq⟩ | ⟨ce, -, heq⟩
      · exact volumePageId_ne_imgFileId e.1 f heq.symm
      · exact chapterId_ne_imgFileId e.1 ce.1 f heq.symm
  · intro hmem
    rw [hspine] at hmem
    rcases mem_specSpine_cases hmem with ⟨heq, -⟩ | ⟨e, -, hcase⟩
    · exact absurd heq (by decide)
    · rcases hcase with ⟨-, heq⟩ | ⟨ce, -, heq⟩
      · exact volumePageId_ne_coverImage e.1 heq.symm
      · exact chapterId_ne_coverImage e.1 ce.1 heq.symm

/-- A small concrete document for the C1 witness: two volumes out of index
order, one with a volume page, two chapters out of index order, a cover, one
image, one indexed stylesheet and one stylesheet-map entry. -/
def c1Chapter : Chapter := ⟨"Ch", "hello", "text", false, [], none⟩

def c1WitnessState : EpubState :=
  { metadata := [],
    volumes := [(2, ⟨"Vol2", false, false, "navigator", [(1, c1Chapter)]⟩),
                (1, ⟨"Vol1", false, true, "navigator",
                  [(3, c1Chapter), (2, c1Chapter)]⟩)],
    cssFiles := [(0, ⟨"body", none⟩)],
    cssMap := [("extra.css", "x")],
    cssPathMapping := [],
    images := [("image_0.png", ⟨7, "png", "http://e/a.png"⟩)],
    coverBuffer := some 5,
    coverExtension := some "jpg" }

theorem spine_manifest_agreement_witness :
    WfState c1WitnessState ∧
    (∀ t ∈ (generateContentOpf c1WitnessState).2,
      (((generateContentOpf c1WitnessState).1.map (·.id)).count t) = 1) ∧
    (generateContentOpf c1WitnessState).2 = specSpine c1WitnessState :=
  ⟨by decide,
   (spine_manifest_agreement c1WitnessState (by decide)).1,
   (spine_manifest_agreement c1WitnessState (by decide)).2.2.2.2.2.1⟩

end EpubModel

namespace EpubModel

/-! ### C2: archive entry order and compression -/

/-- Compression mode of an entry (directories carry none). -/
def entryComp : ZipEntry → Option Compression
  | ZipEntry.file _ _ c => some c
  | ZipEntry.dir _ => none

/-- Name of an entry. -/
def entryName : ZipEntry → String
  | ZipEntry.file n _ _ => n
  | ZipEntry.dir n => n

theorem mem_ite_list {α : Type} {c : Prop} [Decidable c] {l1 l2 : List α}
    {e : α} (h : e ∈ if c then l1 else l2) :
    (c ∧ e ∈ l1) ∨ (¬c ∧ e ∈ l2) := by
  by_cases hc : c
  · rw [if_pos hc] at h
    exact Or.inl ⟨hc, h⟩
  · rw [if_neg hc] at h
    exact Or.inr ⟨hc, h⟩

/-- A string whose first character is not `m` is not "mimetype". -/
theorem ne_mimetype_of_head (c : Char) (rest : List Char) (s : String)
    (hs : s.data = c :: rest) (hc : c ≠ 'm') : s ≠ "mimetype" := by
  intro h
  subst h
  have h3 : some 'm' = some c := congrArg List.head? hs
  exact hc (Option.some.inj h3).symm

/-- C2: whenever `save` produces an archive, its very first entry is the
file named exactly "mimetype" with the literal package media-type as content
and the uncompressed STORE mode, and every subsequent entry is either a
directory or a file compressed with DEFLATE; no later entry is named
"mimetype". -/
theorem save_archive_structure (st : EpubState) (es : List ZipEntry)
    (h : save st = Except.ok es) :
    es.head? = some (ZipEntry.file "mimetype"
      (ZipData.text "application/epub+zip") Compression.store) ∧
    (∀ e ∈ es.tail,
      entryComp e = none ∨ entryComp e = some Compression.deflate) ∧
    (∀ e ∈ es.tail, entryName e ≠ "mimetype") := by
  rw [save] at h
  rcases hts : generateTocNcx st with te | toc <;> rw [hts] at h
  · simp [Bind.bind, Except.bind] at h
  rcases hns : generateNavXhtml st with ne | nav <;> rw [hns] at h
  · simp [Bind.bind, Except.bind] at h
  simp only [Bind.bind, Except.bind, pure, Except.pure, Except.ok.injEq] at h
  subst h
  refine ⟨rfl, ?_, ?_⟩ <;>
    (intro e he
     rw [List.tail_cons] at he
     rcases List.mem_append.mp he with he2 | hvol
     · rcases List.mem_append.mp he2 with he3 | hcssmap
       · rcases List.mem_append.mp he3 with he4 | hcss
         · rcases List.mem_append.mp he4 with he5 | himg
           · rcases List.mem_append.mp he5 with hlit | hcov
             · simp only [List.mem_cons, List.not_mem_nil, or_false] at hlit
               rcases hlit with rfl | rfl | rfl | rfl | rfl | rfl | rfl | rfl |
                 rfl
               all_goals first
                 | decide
                 | exact Or.inr rfl
                 | exact ne_mimetype_of_head 'O' _ _ rfl (by decide)
                 | exact ne_mimetype_of_head 'M' _ _ rfl (by decide)
             · rcases mem_ite_list hcov with ⟨-, hm⟩ | ⟨-, hm⟩
               · simp only [List.mem_cons, List.not_mem_nil, or_false] at hm
                 rcases hm with rfl | rfl
                 · first
                 | decide
                 | exact Or.inr rfl
                 | exact ne_mimetype_of_head 'O' _ _ rfl (by decide)
                 | exact ne_mimetype_of_head 'M' _ _ rfl (by decide)
                 · first
                 | decide
                 | exact Or.inr rfl
                 | exact ne_mimetype_of_head 'O' _ _ rfl (by decide)
                 | exact ne_mimetype_of_head 'M' _ _ rfl (by decide)
               · cases hm
           · rcases List.mem_map.mp himg with ⟨fe, -, rfl⟩
             first
               | decide
               | exact Or.inr rfl
               | exact ne_mimetype_of_head 'O' _ _ rfl (by decide)
               | exact ne_mimetype_of_head 'M' _ _ rfl (by decide)
         · rcases List.mem_map.mp hcss with ⟨ce, -, rfl⟩
           first
             | decide
             | exact Or.inr rfl
             | exact ne_mimetype_of_head 'O' _ _ rfl (by decide)
             | exact ne_mimetype_of_head 'M' _ _ rfl (by decide)
       · rcases List.mem_map.mp hcssmap with ⟨pe, -, rfl⟩
         first
           | decide
           | exact Or.inr rfl
           | exact ne_mimetype_of_head 'O' _ _ rfl (by decide)
           | exact ne_mimetype_of_head 'M' _ _ rfl (by decide)
     · rcases List.mem_flatMap.mp hvol with ⟨ve, -, hm⟩
       rcases List.mem_append.mp hm with hm2 | hm2
       · rcases mem_ite_list hm2 with ⟨-, hm3⟩ | ⟨-, hm3⟩
         · rcases List.mem_singleton.mp hm3 with rfl
           first
             | decide
             | exact Or.inr rfl
             | exact ne_mimetype_of_head 'O' _ _ rfl (by decide)
             | exact ne_mimetype_of_head 'M' _ _ rfl (by decide)
         · cases hm3
       · rcases List.mem_map.mp hm2 with ⟨ce, -, rfl⟩
         first
                 | decide
                 | exact Or.inr rfl
                 | exact ne_mimetype_of_head 'O' _ _ rfl (by decide)
                 | exact ne_mimetype_of_head 'M' _ _ rfl (by decide))

end EpubModel

namespace EpubModel

/-- The empty document used for the C2 witness. -/
def c2WitnessState : EpubState := ⟨[], [], [], [], [], [], none, none⟩

/-- The archive `save` produces for the empty document. -/
def c2Entries : List ZipEntry :=
  [ZipEntry.file "mimetype" (ZipData.text "application/epub+zip")
     Compression.store,
   ZipEntry.dir "META-INF", ZipEntry.dir "OEBPS", ZipEntry.dir "OEBPS/Text",
   ZipEntry.dir "OEBPS/Styles", ZipEntry.dir "OEBPS/Images",
   ZipEntry.file "META-INF/container.xml" (ZipData.text containerXml)
     Compression.deflate,
   ZipEntry.file "OEBPS/content.opf"
     (ZipData.packageDoc (generateContentOpf c2WitnessState).1
       (generateContentOpf c2WitnessState).2) Compression.deflate,
   ZipEntry.file "OEBPS/toc.ncx" (ZipData.ncxDoc []) Compression.deflate,
   ZipEntry.file "OEBPS/nav.xhtml" (ZipData.navDoc []) Compression.deflate]

theorem save_archive_structure_witness :
    save c2WitnessState = Except.ok c2Entries ∧
    c2Entries.head? = some (ZipEntry.file "mimetype"
      (ZipData.text "application/epub+zip") Compression.store) ∧
    (∀ e ∈ c2Entries.tail,
      entryComp e = none ∨ entryComp e = some Compression.deflate) ∧
    (∀ e ∈ c2Entries.tail, entryName e ≠ "mimetype") :=
  ⟨rfl, (save_archive_structure c2WitnessState c2Entries rfl).1,
   (save_archive_structure c2WitnessState c2Entries rfl).2.1,
   (save_archive_structure c2WitnessState c2Entries rfl).2.2⟩

/-! ### C3: the two tables of contents describe the same hierarchy -/

theorem mapM_ok_of {α β : Type} (l : List α) (f : α → Except JsError β)
    (g : α → β) (h : ∀ x ∈ l, f x = Except.ok (g x)) :
    l.mapM f = Except.ok (l.map g) := by
  induction l with
  | nil => rfl
  | cons e rest ih =>
    rw [List.mapM_cons, h e (List.mem_cons_self e rest),
      ih (fun x hx => h x (List.mem_cons_of_mem e hx))]
    rfl

theorem ncxVolEntry_spec (v : Nat) (vol : Volume) (hne : vol.chapters ≠ []) :
    ncxVolEntry v vol = Except.ok (specVolEntry v vol) := by
  obtain ⟨⟨c, ch⟩, rest, hch⟩ := List.exists_cons_of_ne_nil hne
  rw [ncxVolEntry, specVolEntry]
  by_cases hb : (vol.chapters.length > 1 || vol.alwaysShowVolumeTitle) = true
  · rw [if_pos hb, if_pos hb]
  · rw [if_neg hb, if_neg hb]
    have hhead : vol.chapters.head? = some (c, ch) := by rw [hch]; rfl
    have hk : (vol.chapters.map (·.1)).head? = some c := by rw [hch]; rfl
    have hget : mget vol.chapters c = some ch := by
      rw [hch, mget, if_pos rfl]
    rw [hhead, hk]
    by_cases hcv : vol.createVolumePage
    · simp [hcv, hget]
    · simp [hcv]

/-- C3: the legacy navigation map (toc.ncx) and the navigation page
(nav.xhtml) always print the same logical hierarchy, and whenever every
volume has at least one chapter that hierarchy is the one the specification
describes: a volume with more than one chapter or `alwaysShowVolumeTitle`
becomes a parent entry with its chapters nested, otherwise a flat entry with
the volume's title linking directly to the sole chapter — except that with
`createVolumePage` the entry links to the volume page and the sole chapter
is nested one level below. -/
theorem toc_hierarchies_agree (st : EpubState) :
    generateTocNcx st = generateNavXhtml st ∧
    ((∀ e ∈ st.volumes, e.2.chapters ≠ []) →
      generateTocNcx st = Except.ok (specHierarchy st)) := by
  constructor
  · rfl
  · intro hne
    rw [generateTocNcx, specHierarchy]
    have hm : (sortByKey st.volumes).mapM (fun e => ncxVolEntry e.1 e.2) =
        Except.ok ((sortByKey st.volumes).map (fun e => specVolEntry e.1 e.2)) :=
      mapM_ok_of _ _ _ (fun e hee => ncxVolEntry_spec e.1 e.2
        (hne e (mem_sortByKey.mp hee)))
    rw [hm]
    rfl

/-- Concrete document for the C3 witness: a multi-chapter volume, a flat
single-chapter volume, a single-chapter volume with its own page, and a
volume kept visible by `alwaysShowVolumeTitle`. -/
def c3WitnessState : EpubState :=
  { metadata := [("language", ⟨"en", []⟩)],
    volumes := [(1, ⟨"V1", false, false, "navigator",
                  [(1, c1Chapter), (2, c1Chapter)]⟩),
                (2, ⟨"V2", false, false, "navigator", [(1, c1Chapter)]⟩),
                (3, ⟨"V3", false, true, "navigator", [(1, c1Chapter)]⟩),
                (4, ⟨"V4", true, false, "navigator", [(1, c1Chapter)]⟩)],
    cssFiles := [],
    cssMap := [],
    cssPathMapping := [],
    images := [],
    coverBuffer := some 1,
    coverExtension := some "jpg" }

theorem toc_hierarchies_agree_witness :
    generateTocNcx c3WitnessState = generateNavXhtml c3WitnessState ∧
    generateTocNcx c3WitnessState = Except.ok (specHierarchy c3WitnessState) :=
  ⟨(toc_hierarchies_agree c3WitnessState).1,
   (toc_hierarchies_agree c3WitnessState).2 (by decide)⟩

end EpubModel

namespace EpubModel

/-! ### C6: addCSS conflict behavior -/

/-- State with stylesheet index 1 registered as content "A", hint "p". -/
def c6State : EpubState :=
  { metadata := [], volumes := [], cssFiles := [(1, ⟨"A", some "p"⟩)],
    cssMap := [], cssPathMapping := [], images := [], coverBuffer := none,
    coverExtension := none }

/-- State after overwriting index 1 with content "B", same hint. -/
def c6StateB : EpubState :=
  { c6State with cssFiles := [(1, ⟨"B", some "p"⟩)] }

/-- C6 counterexample: re-registering index 1 with the same path hint but
new content raises no error and OVERWRITES the stored entry (so the call is
not a no-op merge and does not leave the previous content unchanged), and
re-registering with an absent hint — which differs from the stored hint —
also raises no error, refuting the claimed "if and only if". -/
theorem addCSS_claim_counterexample :
    addCSS c6State 1 "B" (some "p") = Except.ok c6StateB ∧
    mget c6StateB.cssFiles 1 ≠ mget c6State.cssFiles 1 ∧
    addCSS c6State 1 "B" none =
      Except.ok { c6State with cssFiles := [(1, ⟨"B", none⟩)] } ∧
    mget c6State.cssFiles 1 = some ⟨"A", some "p"⟩ := by
  refine ⟨rfl, by decide, rfl, rfl⟩

/-- C6 (amended): `addCSS(idx, content, mappath)` raises a ConflictError if
and only if `idx` is already registered, the new path hint is truthy
(present and non-empty) and differs from the stored hint; when no error is
raised the entry is overwritten with the new content and hint (last write
wins), other stylesheet entries and the rest of the state being untouched. -/
theorem addCSS_conflict_characterization (st : EpubState) (idx : Nat)
    (content : String) (mappath : Option String) :
    ((addCSS st idx content mappath = Except.error ConflictError.conflict) ↔
      (∃ entry, mget st.cssFiles idx = some entry ∧
        jsTruthyStr mappath = true ∧ entry.mappath ≠ mappath)) ∧
    (∀ st', addCSS st idx content mappath = Except.ok st' →
      mget st'.cssFiles idx = some ⟨content, mappath⟩ ∧
      (∀ k, k ≠ idx → mget st'.cssFiles k = mget st.cssFiles k) ∧
      st'.cssMap = st.cssMap ∧ st'.volumes = st.volumes) := by
  rcases hg : mget st.cssFiles idx with _ | entry
  · have heq : addCSS st idx content mappath = Except.ok
        { st with cssFiles := mset st.cssFiles idx ⟨content, mappath⟩ } := by
      rw [addCSS, hg]
    constructor
    · constructor
      · intro h
        rw [heq] at h
        cases h
      · rintro ⟨e, he, -, -⟩
        cases he
    · intro st' h
      rw [heq, Except.ok.injEq] at h
      subst h
      exact ⟨mget_mset_self _ _ _, fun k hk => mget_mset_ne _ _ _ _
        (Ne.symm hk), rfl, rfl⟩
  · have heq : addCSS st idx content mappath =
        (if (jsTruthyStr mappath && !(entry.mappath == mappath)) = true then
          Except.error ConflictError.conflict
         else Except.ok
          { st with cssFiles := mset st.cssFiles idx ⟨content, mappath⟩ }) := by
      rw [addCSS, hg]
    by_cases hb : (jsTruthyStr mappath && !(entry.mappath == mappath)) = true
    · rw [if_pos hb] at heq
      rw [Bool.and_eq_true, Bool.not_eq_true', beq_eq_false_iff_ne] at hb
      constructor
      · constructor
        · intro _h
          exact ⟨entry, rfl, hb.1, hb.2⟩
        · intro _h
          exact heq
      · intro st' h
        rw [heq] at h
        cases h
    · rw [if_neg hb] at heq
      rw [Bool.and_eq_true, Bool.not_eq_true', beq_eq_false_iff_ne] at hb
      push_neg at hb
      constructor
      · constructor
        · intro h
          rw [heq] at h
          cases h
        · rintro ⟨e, he, htr, hne⟩
          cases he
          exact absurd (hb htr) hne
      · intro st' h
        rw [heq, Except.ok.injEq] at h
        subst h
        exact ⟨mget_mset_self _ _ _, fun k hk => mget_mset_ne _ _ _ _
          (Ne.symm hk), rfl, rfl⟩

theorem addCSS_conflict_characterization_witness :
    mget c6StateB.cssFiles 1 = some ⟨"B", some "p"⟩ ∧
    c6StateB.cssMap = c6State.cssMap :=
  ⟨((addCSS_conflict_characterization c6State 1 "B" (some "p")).2 c6StateB
      rfl).1,
   ((addCSS_conflict_characterization c6State 1 "B" (some "p")).2 c6StateB
      rfl).2.2.1⟩

/-! ### C7: heading insertion of the chapter renderer -/

/-- C7: when the strict XML parse succeeds, the heading-insertion condition
of that branch (`typeof insertTitle === 'undefined' && insertTitle`) can
never trigger — no generated heading is ever inserted, whatever the
title-insertion mode and whether the body already has a heading; in the
lenient-HTML fallback branch, mode Auto (undefined) inserts exactly when no
heading exists, Always inserts unconditionally and Never never inserts. -/
theorem heading_insertion_conditions :
    (∀ (insertTitle : Option Bool) (hh : Bool),
      chapterHeadingInserted true insertTitle hh = false) ∧
    (∀ hh : Bool, chapterHeadingInserted false none hh = !hh) ∧
    (∀ hh : Bool, chapterHeadingInserted false (some true) hh = true) ∧
    (∀ hh : Bool, chapterHeadingInserted false (some false) hh = false) := by
  refine ⟨?_, ?_, ?_, ?_⟩
  · intro it hh
    rcases it with _ | b
    · cases hh <;> rfl
    · cases b <;> cases hh <;> rfl
  · intro hh
    cases hh <;> rfl
  · intro hh
    cases hh <;> rfl
  · intro hh
    cases hh <;> rfl

end EpubModel

namespace EpubModel

/-! ### The renaming loop of addCSSMap -/

theorem foldr_max_le {l : List Nat} {x : Nat} (hx : x ∈ l) :
    x ≤ l.foldr max 0 := by
  induction l with
  | nil => cases hx
  | cons a rest ih =>
    rcases List.mem_cons.mp hx with rfl | hx'
    · exact Nat.le_max_left _ _
    · exact le_trans (ih hx') (Nat.le_max_right _ _)

theorem isPrefixOf_append_self (a b : List Char) :
    a.isPrefixOf (a ++ b) = true := by
  rw [List.isPrefixOf_iff_prefix]
  exact List.prefix_append a b

theorem takeWhile_append_not (p : Char → Bool) (a : List Char) (h0 : Char)
    (t : List Char) (ha : ∀ c ∈ a, p c = true) (hh : p h0 = false) :
    (a ++ h0 :: t).takeWhile p = a ∧ (a ++ h0 :: t).dropWhile p = h0 :: t := by
  induction a with
  | nil =>
    simp [List.takeWhile_cons, List.dropWhile_cons, hh]
  | cons c rest ih =>
    have hc : p c = true := ha c (List.mem_cons_self c rest)
    obtain ⟨ih1, ih2⟩ := ih (fun x hx => ha x (List.mem_cons_of_mem c hx))
    simp [List.takeWhile_cons, List.dropWhile_cons, hc, ih1, ih2]

theorem styleFileName_data (k : Nat) :
    (styleFileName k).data = "style".data ++ (natChars k ++ '.' :: "css".data) := by
  simp only [styleFileName, strData_append, natStr_data, List.append_assoc]

theorem styleNumOf_styleFileName (k : Nat) :
    styleNumOf (styleFileName k) = some k := by
  rw [styleNumOf]
  simp only [styleFileName_data]
  rw [isPrefixOf_append_self, if_pos rfl]
  have h5 : (5 : Nat) = ("style".data).length := rfl
  rw [h5, List.drop_left]
  obtain ⟨ht, hd⟩ := takeWhile_append_not Char.isDigit (natChars k) '.'
    "css".data (natChars_all_digit k) (by decide)
  rw [ht, hd]
  have hne : (natChars k).isEmpty = false := by
    rcases hemp : natChars k with _ | ⟨c, rest⟩
    · exact absurd hemp (natChars_ne_nil k)
    · rfl
  rw [hne]
  rw [if_pos ⟨rfl, rfl⟩]
  rw [digitsVal_natChars]

theorem cssBusy_le_max (st : EpubState) (k : Nat) (h : cssBusy st k = true) :
    k ≤ cssMaxBusy st := by
  rw [cssBusy, Bool.or_eq_true] at h
  rcases h with h | h
  · have hk : k ∈ st.cssFiles.map (·.1) := by
      rw [mhas] at h
      rcases Option.isSome_iff_exists.mp h with ⟨v, hv⟩
      exact List.mem_map.mpr ⟨(k, v), mget_mem hv, rfl⟩
    exact le_trans (foldr_max_le hk) (Nat.le_max_left _ _)
  · have hk : k ∈ st.cssMap.filterMap (fun pe => styleNumOf pe.1) := by
      rw [mhas] at h
      rcases Option.isSome_iff_exists.mp h with ⟨v, hv⟩
      exact List.mem_filterMap.mpr ⟨(styleFileName k, v), mget_mem hv,
        styleNumOf_styleFileName k⟩
    exact le_trans (foldr_max_le hk) (Nat.le_max_right _ _)

theorem findFreeAux_spec (st : EpubState) :
    ∀ (fuel c k : Nat), c ≤ k → k < c + fuel → cssBusy st k = false →
      cssBusy st (findFreeAux st fuel c) = false ∧
      c ≤ findFreeAux st fuel c ∧
      (∀ j, c ≤ j → j < findFreeAux st fuel c → cssBusy st j = true) := by
  intro fuel
  induction fuel with
  | zero =>
    intro c k h1 h2 _
    omega
  | succ f ih =>
    intro c k h1 h2 hk
    rw [findFreeAux]
    by_cases hc : cssBusy st c = true
    · rw [if_pos hc]
      have hck : c ≠ k := by
        intro he
        rw [he, hk] at hc
        cases hc
      obtain ⟨r1, r2, r3⟩ := ih (c + 1) k (by omega) (by omega) hk
      refine ⟨r1, by omega, fun j hj1 hj2 => ?_⟩
      rcases Nat.eq_or_lt_of_le hj1 with rfl | hj
      · exact hc
      · exact r3 j (by omega) hj2
    · rw [if_neg hc]
      rw [Bool.not_eq_true] at hc
      exact ⟨hc, le_refl c, fun j hj1 hj2 => by omega⟩

theorem findFreeCss_spec (st : EpubState) (start : Nat) :
    cssBusy st (findFreeCss st start) = false ∧
    start ≤ findFreeCss st start ∧
    (∀ j, start ≤ j → j < findFreeCss st start → cssBusy st j = true) := by
  have hfree : cssBusy st (max start (cssMaxBusy st + 1)) = false := by
    rcases hbusy : cssBusy st (max start (cssMaxBusy st + 1)) with _ | _
    · rfl
    · have := cssBusy_le_max st _ hbusy
      have h2 : cssMaxBusy st + 1 ≤ max start (cssMaxBusy st + 1) :=
        Nat.le_max_right _ _
      omega
  have hwin : max start (cssMaxBusy st + 1) < start + (cssMaxBusy st + 2) := by
    have := Nat.max_le.mpr (⟨Nat.le_add_right start (cssMaxBusy st + 1),
      Nat.le_add_left (cssMaxBusy st + 1) start⟩ :
        start ≤ start + (cssMaxBusy st + 1) ∧
        cssMaxBusy st + 1 ≤ start + (cssMaxBusy st + 1))
    omega
  exact findFreeAux_spec st (cssMaxBusy st + 2) start
    (max start (cssMaxBusy st + 1)) (Nat.le_max_left _ _) hwin hfree

/-! ### The link-rewriting pass, pointwise -/

theorem processLinks_text (m : List (String × String)) (s : String)
    (l : List CNode) :
    processLinksNodes m (CNode.text s :: l) =
      CNode.text s :: processLinksNodes m l := rfl

theorem processLinks_img (m : List (String × String)) (o : Option String)
    (l : List CNode) :
    processLinksNodes m (CNode.img o :: l) =
      CNode.img o :: processLinksNodes m l := rfl

theorem processLinks_link_none (m : List (String × String)) (l : List CNode) :
    processLinksNodes m (CNode.link none :: l) =
      CNode.link none :: processLinksNodes m l := rfl

theorem processLinks_link_some (m : List (String × String)) (h : String)
    (l : List CNode) :
    processLinksNodes m (CNode.link (some h) :: l) =
      (if h = "" then CNode.link (some h) :: processLinksNodes m l
       else if mhas m h then CNode.link (mget m h) :: processLinksNodes m l
       else processLinksNodes m l) := rfl

/-- Every stylesheet link whose href is a mapped path is rewritten to the
mapped value, wherever it occurs in the node list. -/
theorem processLinksNodes_append (m : List (String × String))
    (pre post : List CNode) (h v : String)
    (hh : h ≠ "") (hm : mget m h = some v) :
    processLinksNodes m (pre ++ CNode.link (some h) :: post) =
      processLinksNodes m pre ++
        CNode.link (some v) :: processLinksNodes m post := by
  have hhas : mhas m h = true := by
    rw [mhas, hm]
    rfl
  induction pre with
  | nil =>
    rw [List.nil_append, processLinks_link_some, if_neg hh, if_pos hhas, hm]
    rfl
  | cons n rest ih =>
    rcases n with s | o | o
    · rw [List.cons_append, processLinks_text, processLinks_text, ih,
        List.cons_append]
    · rcases o with _ | href
      · rw [List.cons_append, processLinks_link_none, processLinks_link_none,
          ih, List.cons_append]
      · rw [List.cons_append, processLinks_link_some, processLinks_link_some]
        by_cases h1 : href = ""
        · rw [if_pos h1, if_pos h1, ih, List.cons_append]
        · rw [if_neg h1, if_neg h1]
          by_cases h2 : mhas m href = true
          · rw [if_pos h2, if_pos h2, ih, List.cons_append]
          · rw [if_neg h2, if_neg h2, ih]
    · rw [List.cons_append, processLinks_img, processLinks_img, ih,
        List.cons_append]

end EpubModel

namespace EpubModel

/-- C5: a stylesheet-map entry whose path (after stripping a leading
"Styles/") matches the indexed-naming pattern `styleN.css` and collides with
an existing indexed stylesheet has its output path reassigned to
`styleK.css` where K is the first free integer at or above 1000 in the
stylesheet namespace, and every stylesheet link in subsequently inserted
chapter markup whose href equals the original path is rewritten to the
reassigned final relative path `../Styles/styleK.css`. -/
theorem cssmap_collision_reassignment (net : Network) (st : EpubState)
    (orig src : String)
    (hsrc : strStartsWith src "http" = false)
    (hpat : (styleNumOf (normalizeCssPath orig)).isSome = true)
    (_hcol : ∃ n, styleNumOf (normalizeCssPath orig) = some n ∧
      mhas st.cssFiles n = true)
    (horig : orig ≠ "") :
    1000 ≤ findFreeCss st 1000 ∧
    cssBusy st (findFreeCss st 1000) = false ∧
    (∀ j, 1000 ≤ j → j < findFreeCss st 1000 → cssBusy st j = true) ∧
    (addCSSMapGo net st [(orig, src)]).2 = none ∧
    mget (addCSSMapGo net st [(orig, src)]).1.cssPathMapping orig =
      some ("../Styles/" ++ styleFileName (findFreeCss st 1000)) ∧
    mget (addCSSMapGo net st [(orig, src)]).1.cssMap
      (styleFileName (findFreeCss st 1000)) = some src ∧
    (∀ pre post,
      processLinksNodes (addCSSMapGo net st [(orig, src)]).1.cssPathMapping
          (pre ++ CNode.link (some orig) :: post) =
        processLinksNodes (addCSSMapGo net st [(orig, src)]).1.cssPathMapping
            pre ++
          CNode.link (some ("../Styles/" ++ styleFileName (findFreeCss st 1000)))
            :: processLinksNodes
              (addCSSMapGo net st [(orig, src)]).1.cssPathMapping post) := by
  obtain ⟨hfree, hge, hleast⟩ := findFreeCss_spec st 1000
  have hrun : addCSSMapGo net st [(orig, src)] =
      ({ st with
          cssPathMapping := mset st.cssPathMapping orig
            ("../Styles/" ++ styleFileName (findFreeCss st 1000)),
          cssMap := mset st.cssMap (styleFileName (findFreeCss st 1000)) src },
        none) := by
    rw [addCSSMapGo]
    rw [if_pos hpat, if_neg (by rw [hsrc]; exact Bool.false_ne_true)]
    rw [addCSSMapGo]
  rw [hrun]
  refine ⟨hge, hfree, hleast, rfl, mget_mset_self _ _ _, mget_mset_self _ _ _,
    ?_⟩
  intro pre post
  exact processLinksNodes_append _ pre post orig _ horig (mget_mset_self _ _ _)

/-- Network oracle on which every fetch is rejected. -/
def netNone : Network := fun _ => none

theorem cssmap_collision_reassignment_witness :
    1000 ≤ findFreeCss c6State 1000 ∧
    cssBusy c6State (findFreeCss c6State 1000) = false ∧
    (∀ j, 1000 ≤ j → j < findFreeCss c6State 1000 →
      cssBusy c6State j = true) ∧
    (addCSSMapGo netNone c6State [("style1.css", "body")]).2 = none ∧
    mget (addCSSMapGo netNone c6State
        [("style1.css", "body")]).1.cssPathMapping "style1.css" =
      some ("../Styles/" ++ styleFileName (findFreeCss c6State 1000)) ∧
    mget (addCSSMapGo netNone c6State [("style1.css", "body")]).1.cssMap
      (styleFileName (findFreeCss c6State 1000)) = some "body" ∧
    (∀ pre post,
      processLinksNodes (addCSSMapGo netNone c6State
          [("style1.css", "body")]).1.cssPathMapping
          (pre ++ CNode.link (some "style1.css") :: post) =
        processLinksNodes (addCSSMapGo netNone c6State
            [("style1.css", "body")]).1.cssPathMapping pre ++
          CNode.link
            (some ("../Styles/" ++ styleFileName (findFreeCss c6State 1000)))
            :: processLinksNodes (addCSSMapGo netNone c6State
              [("style1.css", "body")]).1.cssPathMapping post) :=
  cssmap_collision_reassignment netNone c6State "style1.css" "body"
    (by decide) (by decide) ⟨1, by decide, by decide⟩ (by decide)

/-- C9: addCSSMap is not atomic on fetch failure — the path mapping of the
failing entry and the stored content of all earlier entries of the same call
remain registered, and a later chapter insertion would rewrite links to the
failing entry's final path even though its stylesheet content was never
stored. -/
theorem addCSSMap_not_atomic (net : Network) (st : EpubState)
    (p0 c0 p url : String)
    (h0 : strStartsWith c0 "http" = false)
    (hurl : strStartsWith url "http" = true)
    (hfail : respOk (net url) = false)
    (hn0 : (styleNumOf (normalizeCssPath p0)).isSome = false)
    (hnp : (styleNumOf (normalizeCssPath p)).isSome = false)
    (hmap : mhas st.cssMap (normalizeCssPath p) = false)
    (hne : normalizeCssPath p ≠ normalizeCssPath p0)
    (hp : p ≠ "") :
    (addCSSMapGo net st [(p0, c0), (p, url)]).2 =
      some FetchError.fetchFailed ∧
    mget (addCSSMapGo net st [(p0, c0), (p, url)]).1.cssMap
      (normalizeCssPath p0) = some c0 ∧
    mget (addCSSMapGo net st [(p0, c0), (p, url)]).1.cssPathMapping p =
      some ("../Styles/" ++ normalizeCssPath p) ∧
    mhas (addCSSMapGo net st [(p0, c0), (p, url)]).1.cssMap
      (normalizeCssPath p) = false ∧
    (∀ pre post,
      processLinksNodes
          (addCSSMapGo net st [(p0, c0), (p, url)]).1.cssPathMapping
          (pre ++ CNode.link (some p) :: post) =
        processLinksNodes
            (addCSSMapGo net st [(p0, c0), (p, url)]).1.cssPathMapping pre ++
          CNode.link (some ("../Styles/" ++ normalizeCssPath p)) ::
            processLinksNodes (addCSSMapGo net st
              [(p0, c0), (p, url)]).1.cssPathMapping post) := by
  have hrun : addCSSMapGo net st [(p0, c0), (p, url)] =
      ({ st with
          cssPathMapping := mset
            (mset st.cssPathMapping p0 ("../Styles/" ++ normalizeCssPath p0))
            p ("../Styles/" ++ normalizeCssPath p),
          cssMap := mset st.cssMap (normalizeCssPath p0) c0 },
        some FetchError.fetchFailed) := by
    rcases hnet : net url with _ | resp
    · simp only [addCSSMapGo, hn0, h0, hnp, hurl, hnet, Bool.false_eq_true,
        if_false, if_true]
    · have hok : resp.ok = false := by
        rw [respOk.eq_def, hnet] at hfail
        exact hfail
      simp only [addCSSMapGo, hn0, h0, hnp, hurl, hnet, hok,
        Bool.false_eq_true, if_false, if_true]
  rw [hrun]
  refine ⟨rfl, mget_mset_self _ _ _, mget_mset_self _ _ _, ?_, ?_⟩
  · rw [mhas_false_iff, mget_mset_ne _ _ _ _ (Ne.symm hne),
      mhas_false_iff.mp hmap]
  · intro pre post
    exact processLinksNodes_append _ pre post p _ hp (mget_mset_self _ _ _)

theorem addCSSMap_not_atomic_witness :
    (addCSSMapGo netNone c2WitnessState
        [("a.css", "x"), ("b.css", "http://e/c.css")]).2 =
      some FetchError.fetchFailed ∧
    mget (addCSSMapGo netNone c2WitnessState
        [("a.css", "x"), ("b.css", "http://e/c.css")]).1.cssMap
      (normalizeCssPath "a.css") = some "x" ∧
    mget (addCSSMapGo netNone c2WitnessState
        [("a.css", "x"), ("b.css", "http://e/c.css")]).1.cssPathMapping
      "b.css" = some ("../Styles/" ++ normalizeCssPath "b.css") ∧
    mhas (addCSSMapGo netNone c2WitnessState
        [("a.css", "x"), ("b.css", "http://e/c.css")]).1.cssMap
      (normalizeCssPath "b.css") = false :=
  ⟨(addCSSMap_not_atomic netNone c2WitnessState "a.css" "x" "b.css"
      "http://e/c.css" (by decide) (by decide) (by decide) (by decide)
      (by decide) (by decide) (by decide) (by decide)).1,
   (addCSSMap_not_atomic netNone c2WitnessState "a.css" "x" "b.css"
      "http://e/c.css" (by decide) (by decide) (by decide) (by decide)
      (by decide) (by decide) (by decide) (by decide)).2.1,
   (addCSSMap_not_atomic netNone c2WitnessState "a.css" "x" "b.css"
      "http://e/c.css" (by decide) (by decide) (by decide) (by decide)
      (by decide) (by decide) (by decide) (by decide)).2.2.1,
   (addCSSMap_not_atomic netNone c2WitnessState "a.css" "x" "b.css"
      "http://e/c.css" (by decide) (by decide) (by decide) (by decide)
      (by decide) (by decide) (by decide) (by decide)).2.2.2.1⟩

end EpubModel

namespace EpubModel

/-! ### C4: behavior of the image pipeline on one external image -/

/-- Whether a node is an `img` element. -/
def isImgNode : CNode → Bool
  | CNode.img _ => true
  | _ => false

/-- The URL the pipeline downloads for an `http://` image: the HTTPS
upgrade when its probe responded ok, else the original URL. -/
def chosenUrl (net : Network) (src : String) : String :=
  if respOk (net (httpsUpgrade src)) then httpsUpgrade src else src

/-- Whether an event is the HTTPS-upgrade probe. -/
def isUpgradeEvent : FetchEvent → Bool
  | FetchEvent.upgrade _ => true
  | FetchEvent.download _ => false

theorem go_text (net : Network) (s : String) (rest : List CNode)
    (imgs : List (String × ImageData)) (cnt : Nat) :
    downloadImagesGo net (CNode.text s :: rest) imgs cnt =
      ⟨CNode.text s :: (downloadImagesGo net rest imgs cnt).nodes,
       (downloadImagesGo net rest imgs cnt).images,
       (downloadImagesGo net rest imgs cnt).counter,
       (downloadImagesGo net rest imgs cnt).events⟩ := rfl

theorem go_link (net : Network) (o : Option String) (rest : List CNode)
    (imgs : List (String × ImageData)) (cnt : Nat) :
    downloadImagesGo net (CNode.link o :: rest) imgs cnt =
      ⟨CNode.link o :: (downloadImagesGo net rest imgs cnt).nodes,
       (downloadImagesGo net rest imgs cnt).images,
       (downloadImagesGo net rest imgs cnt).counter,
       (downloadImagesGo net rest imgs cnt).events⟩ := rfl

theorem go_img_none (net : Network) (rest : List CNode)
    (imgs : List (String × ImageData)) (cnt : Nat) :
    downloadImagesGo net (CNode.img none :: rest) imgs cnt =
      ⟨CNode.img none :: (downloadImagesGo net rest imgs cnt).nodes,
       (downloadImagesGo net rest imgs cnt).images,
       (downloadImagesGo net rest imgs cnt).counter,
       (downloadImagesGo net rest imgs cnt).events⟩ := rfl

theorem go_img_http (net : Network) (src : String) (rest : List CNode)
    (imgs : List (String × ImageData)) (cnt : Nat)
    (hsrc : strStartsWith src "http://" = true) :
    downloadImagesGo net (CNode.img (some src) :: rest) imgs cnt =
      (match net (chosenUrl net src) with
       | some resp =>
         if resp.ok = true then
           (let ext := imgExtension resp (chosenUrl net src)
            let fname := imageFileName cnt ext
            let r := downloadImagesGo net rest
              (mset imgs fname ⟨resp.bodyBytes, ext, src⟩) (cnt + 1)
            ⟨CNode.img (some ("../Images/" ++ fname)) :: r.nodes, r.images,
              r.counter,
              FetchEvent.upgrade (httpsUpgrade src) ::
                FetchEvent.download (chosenUrl net src) :: r.events⟩)
         else
           (let r := downloadImagesGo net rest imgs cnt
            ⟨r.nodes, r.images, r.counter,
              FetchEvent.upgrade (httpsUpgrade src) ::
                FetchEvent.download (chosenUrl net src) :: r.events⟩)
       | none =>
         (let r := downloadImagesGo net rest imgs cnt
          ⟨r.nodes, r.images, r.counter,
            FetchEvent.upgrade (httpsUpgrade src) ::
              FetchEvent.download (chosenUrl net src) :: r.events⟩)) := by
  have hext : srcExternal src = true := by
    rw [srcExternal, hsrc]
    rfl
  rw [downloadImagesGo, if_pos hext]
  simp only [hsrc, if_true, chosenUrl]
  rfl

theorem go_no_img (net : Network) (nodes : List CNode)
    (imgs : List (String × ImageData)) (cnt : Nat)
    (h : ∀ n ∈ nodes, isImgNode n = false) :
    downloadImagesGo net nodes imgs cnt = ⟨nodes, imgs, cnt, []⟩ := by
  induction nodes with
  | nil => rfl
  | cons n rest ih =>
    have hn := h n (List.mem_cons_self n rest)
    have hrest := ih (fun x hx => h x (List.mem_cons_of_mem _ hx))
    rcases n with s | o | o
    · rw [go_text, hrest]
    · rw [go_link, hrest]
    · rcases o with _ | src
      · rw [go_img_none, hrest]
      · simp [isImgNode] at hn

theorem go_no_img_append (net : Network) (pre rest : List CNode)
    (imgs : List (String × ImageData)) (cnt : Nat)
    (h : ∀ n ∈ pre, isImgNode n = false) :
    downloadImagesGo net (pre ++ rest) imgs cnt =
      ⟨pre ++ (downloadImagesGo net rest imgs cnt).nodes,
       (downloadImagesGo net rest imgs cnt).images,
       (downloadImagesGo net rest imgs cnt).counter,
       (downloadImagesGo net rest imgs cnt).events⟩ := by
  induction pre with
  | nil => rfl
  | cons n p ih =>
    have hn := h n (List.mem_cons_self n p)
    have hrest := ih (fun x hx => h x (List.mem_cons_of_mem _ hx))
    rcases n with s | o | o
    · rw [List.cons_append, go_text, hrest]
      rfl
    · rw [List.cons_append, go_link, hrest]
      rfl
    · rcases o with _ | src
      · rw [List.cons_append, go_img_none, hrest]
        rfl
      · simp [isImgNode] at hn

end EpubModel

namespace EpubModel

theorem go_img_http_none (net : Network) (src : String) (rest : List CNode)
    (imgs : List (String × ImageData)) (cnt : Nat)
    (hsrc : strStartsWith src "http://" = true)
    (hnone : net (chosenUrl net src) = none) :
    downloadImagesGo net (CNode.img (some src) :: rest) imgs cnt =
      ⟨(downloadImagesGo net rest imgs cnt).nodes,
       (downloadImagesGo net rest imgs cnt).images,
       (downloadImagesGo net rest imgs cnt).counter,
       FetchEvent.upgrade (httpsUpgrade src) ::
         FetchEvent.download (chosenUrl net src) ::
         (downloadImagesGo net rest imgs cnt).events⟩ := by
  rw [go_img_http net src rest imgs cnt hsrc, hnone]

theorem go_img_http_fail (net : Network) (src : String) (rest : List CNode)
    (imgs : List (String × ImageData)) (cnt : Nat) (resp : Resp)
    (hsrc : strStartsWith src "http://" = true)
    (hsome : net (chosenUrl net src) = some resp) (hok : resp.ok = false) :
    downloadImagesGo net (CNode.img (some src) :: rest) imgs cnt =
      ⟨(downloadImagesGo net rest imgs cnt).nodes,
       (downloadImagesGo net rest imgs cnt).images,
       (downloadImagesGo net rest imgs cnt).counter,
       FetchEvent.upgrade (httpsUpgrade src) ::
         FetchEvent.download (chosenUrl net src) ::
         (downloadImagesGo net rest imgs cnt).events⟩ := by
  rw [go_img_http net src rest imgs cnt hsrc, hsome]
  simp only [hok, Bool.false_eq_true, if_false]

theorem go_img_http_succ (net : Network) (src : String) (rest : List CNode)
    (imgs : List (String × ImageData)) (cnt : Nat) (resp : Resp)
    (hsrc : strStartsWith src "http://" = true)
    (hsome : net (chosenUrl net src) = some resp) (hok : resp.ok = true) :
    downloadImagesGo net (CNode.img (some src) :: rest) imgs cnt =
      (let ext := imgExtension resp (chosenUrl net src)
       let fname := imageFileName cnt ext
       let r := downloadImagesGo net rest
         (mset imgs fname ⟨resp.bodyBytes, ext, src⟩) (cnt + 1)
       ⟨CNode.img (some ("../Images/" ++ fname)) :: r.nodes, r.images,
        r.counter,
        FetchEvent.upgrade (httpsUpgrade src) ::
          FetchEvent.download (chosenUrl net src) :: r.events⟩) := by
  rw [go_img_http net src rest imgs cnt hsrc, hsome]
  simp only [hok, if_true]

theorem imageFileName_data (k : Nat) (e : String) :
    (imageFileName k e).data =
      "image_".data ++ (natChars k ++ '.' :: e.data) := by
  rw [imageFileName]
  rw [strData_append, strData_append, strData_append, natStr_data]
  simp [List.append_assoc]

theorem imageFileName_inj_num {k n : Nat} {e f : String}
    (h : imageFileName k e = imageFileName n f) : k = n := by
  have hd := congrArg String.data h
  rw [imageFileName_data, imageFileName_data] at hd
  have h2 := List.append_cancel_left hd
  have h3 := digits_sep_inj (natChars k) (natChars n) e.data f.data '.' '.'
    (natChars_all_digit k) (natChars_all_digit n) (by decide) (by decide) h2
  exact natChars_injective h3.1

/-- Every stored image key is a generated `image_<k>.<ext>` name whose
counter value is below the current map size. -/
def ImagesWf (imgs : List (String × ImageData)) : Prop :=
  ∀ p ∈ imgs, ∃ k e, k < imgs.length ∧ p.1 = imageFileName k e

theorem fresh_imageFileName {imgs : List (String × ImageData)}
    (hwf : ImagesWf imgs) (e : String) :
    mhas imgs (imageFileName imgs.length e) = false := by
  rw [mhas_false_iff]
  rcases hv : mget imgs (imageFileName imgs.length e) with _ | v
  · rfl
  · exfalso
    rcases hwf _ (mget_mem hv) with ⟨k, f, hk, hkey⟩
    have hkn : imgs.length = k := imageFileName_inj_num hkey
    rw [← hkn] at hk
    exact absurd hk (lt_irrefl _)

end EpubModel

namespace EpubModel

/-- C4: for a markup chapter containing an `img` whose src is an absolute
`http://` URL, exactly one HTTPS-upgrade probe is recorded (an alternate,
never a retry loop); when the chosen URL's download succeeds the asset is
registered under the next `image_<counter>.<ext>` name — fresh against the
document-wide image map, whose size and the counter advance by exactly
one — and the element's src is rewritten to `../Images/<name>`; when the
download of the chosen URL fails (so both the upgrade and the original URL
failed) the `img` element is absent from the result, no asset is
registered, the counter is unchanged; and `addChapter` stores the chapter
into its volume in every case. -/
theorem image_download_behavior
    (net : Network) (st : EpubState) (src : String) (pre post : List CNode)
    (hpre : ∀ n ∈ pre, isImgNode n = false)
    (hpost : ∀ n ∈ post, isImgNode n = false)
    (hsrc : strStartsWith src "http://" = true)
    (hwf : ImagesWf st.images) :
    let r := downloadImagesGo net (pre ++ CNode.img (some src) :: post)
      st.images st.images.length
    List.filter isUpgradeEvent r.events =
        [FetchEvent.upgrade (httpsUpgrade src)] ∧
    (∀ resp : Resp, net (chosenUrl net src) = some resp → resp.ok = true →
      let ext := imgExtension resp (chosenUrl net src)
      let fname := imageFileName st.images.length ext
      r.nodes = pre ++ CNode.img (some ("../Images/" ++ fname)) :: post ∧
      r.images = mset st.images fname ⟨resp.bodyBytes, ext, src⟩ ∧
      mhas st.images fname = false ∧
      r.images.length = st.images.length + 1 ∧
      r.counter = st.images.length + 1) ∧
    (respOk (net (chosenUrl net src)) = false →
      r.nodes = pre ++ post ∧ r.images = st.images ∧
      r.counter = st.images.length ∧
      ∀ n ∈ r.nodes, isImgNode n = false) ∧
    (∀ (volIdx chapIdx : Nat) (title content ctype : String)
        (useGlobalCSS : Bool) (cssIdxs : List Nat)
        (insertTitle : Option Bool) (vol : Volume),
      mget st.volumes volIdx = some vol →
      ∃ vol2, mget (addChapter net st volIdx chapIdx title content ctype
          useGlobalCSS cssIdxs insertTitle).volumes volIdx = some vol2 ∧
        mhas vol2.chapters chapIdx = true) := by
  intro r
  have h4 : ∀ (volIdx chapIdx : Nat) (title content ctype : String)
      (useGlobalCSS : Bool) (cssIdxs : List Nat)
      (insertTitle : Option Bool) (vol : Volume),
      mget st.volumes volIdx = some vol →
      ∃ vol2, mget (addChapter net st volIdx chapIdx title content ctype
          useGlobalCSS cssIdxs insertTitle).volumes volIdx = some vol2 ∧
        mhas vol2.chapters chapIdx = true := by
    intro volIdx chapIdx title content ctype g cs it vol hvol
    rw [addChapter]
    simp only [hvol]
    exact ⟨_, mget_mset_self _ _ _, by rw [mhas, mget_mset_self]; rfl⟩
  rcases hnet : net (chosenUrl net src) with _ | resp
  · have hmid := go_img_http_none net src post st.images st.images.length
      hsrc hnet
    rw [go_no_img net post st.images st.images.length hpost] at hmid
    have hrEq : r = ⟨pre ++ post, st.images, st.images.length,
        [FetchEvent.upgrade (httpsUpgrade src),
         FetchEvent.download (chosenUrl net src)]⟩ := by
      show downloadImagesGo net (pre ++ CNode.img (some src) :: post)
        st.images st.images.length = _
      rw [go_no_img_append net pre _ _ _ hpre, hmid]
    refine ⟨?_, ?_, ?_, h4⟩
    · rw [hrEq]
      rfl
    · intro resp hresp _hok
      simp at hresp
    · intro _h
      rw [hrEq]
      refine ⟨rfl, rfl, rfl, ?_⟩
      intro n hn
      rcases List.mem_append.mp hn with h | h
      · exact hpre n h
      · exact hpost n h
  · by_cases hok : resp.ok = true
    · have hmid := go_img_http_succ net src post st.images st.images.length
        resp hsrc hnet hok
      simp only [] at hmid
      have hfresh : mhas st.images
          (imageFileName st.images.length (imgExtension resp
            (chosenUrl net src))) = false :=
        fresh_imageFileName hwf _
      rw [go_no_img net post
        (mset st.images (imageFileName st.images.length (imgExtension resp
          (chosenUrl net src)))
          ⟨resp.bodyBytes, imgExtension resp (chosenUrl net src), src⟩)
        (st.images.length + 1) hpost] at hmid
      have hrEq : r = ⟨pre ++ CNode.img (some ("../Images/" ++
            imageFileName st.images.length (imgExtension resp
              (chosenUrl net src)))) :: post,
          mset st.images (imageFileName st.images.length (imgExtension resp
            (chosenUrl net src)))
            ⟨resp.bodyBytes, imgExtension resp (chosenUrl net src), src⟩,
          st.images.length + 1,
          [FetchEvent.upgrade (httpsUpgrade src),
           FetchEvent.download (chosenUrl net src)]⟩ := by
        show downloadImagesGo net (pre ++ CNode.img (some src) :: post)
          st.images st.images.length = _
        rw [go_no_img_append net pre _ _ _ hpre, hmid]
      refine ⟨?_, ?_, ?_, h4⟩
      · rw [hrEq]
        rfl
      · intro resp2 hresp2 _hok2
        injection hresp2 with hresp2
        subst hresp2
        intro ext fname
        rw [hrEq]
        exact ⟨rfl, rfl, hfresh,
          mset_length_of_not_mhas _ hfresh, rfl⟩
      · intro h3
        simp only [respOk] at h3
        rw [hok] at h3
        simp at h3
    · have hok' : resp.ok = false := by
        cases hb : resp.ok
        · rfl
        · exact absurd hb hok
      have hmid := go_img_http_fail net src post st.images st.images.length
        resp hsrc hnet hok'
      rw [go_no_img net post st.images st.images.length hpost] at hmid
      have hrEq : r = ⟨pre ++ post, st.images, st.images.length,
          [FetchEvent.upgrade (httpsUpgrade src),
           FetchEvent.download (chosenUrl net src)]⟩ := by
        show downloadImagesGo net (pre ++ CNode.img (some src) :: post)
          st.images st.images.length = _
        rw [go_no_img_append net pre _ _ _ hpre, hmid]
      refine ⟨?_, ?_, ?_, h4⟩
      · rw [hrEq]
        rfl
      · intro resp2 hresp2 hok2
        injection hresp2 with hresp2
        subst hresp2
        exact absurd hok2 hok
      · intro _h
        rw [hrEq]
        refine ⟨rfl, rfl, rfl, ?_⟩
        intro n hn
        rcases List.mem_append.mp hn with h | h
        · exact hpre n h
        · exact hpost n h

end EpubModel

namespace EpubModel

/-- A network where the HTTPS upgrade of `http://e/a.png` succeeds with a
png content type and every other URL is rejected. -/
def c4Net : Network := fun u =>
  if u = "https://e/a.png" then some ⟨true, some "image/png", "", 2⟩
  else none

/-- A document with one empty volume and no downloaded images. -/
def c4State : EpubState :=
  ⟨[], [(0, ⟨"V", false, false, "text", []⟩)], [], [], [], [], none, none⟩

theorem image_download_behavior_witness :
    List.filter isUpgradeEvent (downloadImagesGo c4Net
        ([CNode.text "x"] ++ CNode.img (some "http://e/a.png") :: [])
        c4State.images c4State.images.length).events =
      [FetchEvent.upgrade (httpsUpgrade "http://e/a.png")] :=
  (image_download_behavior c4Net c4State "http://e/a.png" [CNode.text "x"] []
    (by decide) (by decide) (by decide)
    (fun p hp => absurd hp (List.not_mem_nil p))).1

end EpubModel

namespace EpubModel

/-! ### C8: the empty-volume behaviors -/

theorem chapterHref_none_data (v : Nat) :
    (chapterHref v none).data =
      "Text/volume".data ++ (natChars v ++ '_' ::
        ("chapter".data ++ "undefined.xhtml".data)) := by
  rw [chapterHref]
  rw [strData_append, strData_append, strData_append, strData_append,
    natStr_data]
  simp [optNatStr, List.append_assoc]

theorem chapterHref_some_data (v c : Nat) :
    (chapterHref v (some c)).data =
      "Text/volume".data ++ (natChars v ++ '_' ::
        ("chapter".data ++ (natChars c ++ ".xhtml".data))) := by
  rw [chapterHref]
  rw [strData_append, strData_append, strData_append, strData_append,
    natStr_data]
  simp [optNatStr, natStr_data, List.append_assoc]

theorem volumeIndexHref_data (v : Nat) :
    (volumeIndexHref v).data =
      "Text/volume".data ++ (natChars v ++ '_' :: "index.xhtml".data) := by
  rw [volumeIndexHref]
  rw [strData_append, strData_append, natStr_data]
  simp [List.append_assoc]

theorem volumeIndexHref_ne_chapterHref_none (v' v : Nat) :
    volumeIndexHref v' ≠ chapterHref v none := by
  apply str_ne_of_data_ne
  rw [volumeIndexHref_data, chapterHref_none_data]
  intro h
  have h2 := List.append_cancel_left h
  have h3 := digits_sep_inj (natChars v') (natChars v) "index.xhtml".data
    ("chapter".data ++ "undefined.xhtml".data) '_' '_'
    (natChars_all_digit v') (natChars_all_digit v) (by decide) (by decide) h2
  exact absurd h3.2.2 (by decide)

theorem chapterHref_some_ne_none (v' c v : Nat) :
    chapterHref v' (some c) ≠ chapterHref v none := by
  apply str_ne_of_data_ne
  rw [chapterHref_some_data, chapterHref_none_data]
  intro h
  have h2 := List.append_cancel_left h
  have h3 := digits_sep_inj (natChars v') (natChars v)
    ("chapter".data ++ (natChars c ++ ".xhtml".data))
    ("chapter".data ++ "undefined.xhtml".data) '_' '_'
    (natChars_all_digit v') (natChars_all_digit v) (by decide) (by decide) h2
  have h4 := List.append_cancel_left h3.2.2
  cases hnc : natChars c with
  | nil => exact absurd hnc (natChars_ne_nil c)
  | cons d ds =>
    rw [hnc] at h4
    have hd : d.isDigit = true :=
      natChars_all_digit c d (by rw [hnc]; exact List.mem_cons_self d ds)
    have hdu : d = 'u' := by
      have hh := congrArg List.head? h4
      simp at hh
      exact hh
    rw [hdu] at hd
    exact absurd hd (by decide)

theorem containsSeq_cons (pat : List Char) (c : Char) (l : List Char)
    (h : containsSeq pat l = true) : containsSeq pat (c :: l) = true := by
  rw [containsSeq, splitAfterSeq]
  by_cases hp : pat.isPrefixOf (c :: l) = true
  · rw [if_pos hp]
    rfl
  · rw [if_neg hp]
    exact h

theorem containsSeq_append (pat pre l : List Char)
    (h : containsSeq pat l = true) : containsSeq pat (pre ++ l) = true := by
  induction pre with
  | nil => exact h
  | cons c p ih => exact containsSeq_cons pat c _ ih

theorem mapM_error_of {α β : Type} (l : List α) (f : α → Except JsError β)
    (x : α) (hx : x ∈ l) (hf : f x = Except.error JsError.typeError) :
    l.mapM f = Except.error JsError.typeError := by
  induction l with
  | nil => cases hx
  | cons a as ih =>
    rw [List.mapM_cons]
    rcases List.mem_cons.mp hx with rfl | hmem
    · rw [hf]
      rfl
    · rcases hfa : f a with e | b
      · cases e
        rfl
      · rw [ih hmem]
        rfl

theorem ncxVolEntry_empty_cvp (v : Nat) (vol : Volume)
    (hempty : vol.chapters = []) (hasvt : vol.alwaysShowVolumeTitle = false)
    (hcvp : vol.createVolumePage = true) :
    ncxVolEntry v vol = Except.error JsError.typeError := by
  rw [ncxVolEntry]
  simp [hempty, hasvt, hcvp, sortByKey]

theorem ncxVolEntry_empty_flat (v : Nat) (vol : Volume)
    (hempty : vol.chapters = []) (hasvt : vol.alwaysShowVolumeTitle = false)
    (hcvp : vol.createVolumePage = false) :
    ncxVolEntry v vol = Except.ok ⟨vol.title, chapterHref v none, []⟩ := by
  rw [ncxVolEntry]
  simp [hempty, hasvt, hcvp, sortByKey]

end EpubModel

namespace EpubModel

theorem chapterHref_none_notin_manifest (st : EpubState) (v : Nat) :
    ∀ item ∈ (generateContentOpf st).1, item.href ≠ chapterHref v none := by
  intro item hmem
  rw [generateContentOpf_eq] at hmem
  rcases List.mem_append.mp hmem with hbase | hvol
  · rw [manifestBase] at hbase
    rcases List.mem_append.mp hbase with hb | hmap
    · rcases List.mem_append.mp hb with hb2 | hcss
      · rcases List.mem_append.mp hb2 with hb3 | himg
        · rcases List.mem_append.mp hb3 with hfix | hcov
          · simp only [List.mem_cons, List.not_mem_nil, or_false] at hfix
            rcases hfix with rfl | rfl
            · show "toc.ncx" ≠ chapterHref v none
              apply str_ne_of_data_ne
              rw [chapterHref_none_data]
              exact lit_ne_append "toc.ncx" "Text/volume" _ 0 (by decide)
                (by decide) (by decide)
            · show "nav.xhtml" ≠ chapterHref v none
              apply str_ne_of_data_ne
              rw [chapterHref_none_data]
              exact lit_ne_append "nav.xhtml" "Text/volume" _ 0 (by decide)
                (by decide) (by decide)
          · rcases hc : st.coverBuffer.isSome with _ | _
            · rw [hc] at hcov
              simp at hcov
            · rw [hc, if_pos rfl] at hcov
              simp only [List.mem_cons, List.not_mem_nil, or_false] at hcov
              rcases hcov with rfl | rfl
              · show ("Images/cover." ++ optStr st.coverExtension) ≠
                  chapterHref v none
                apply str_ne_of_data_ne
                rw [strData_append, chapterHref_none_data]
                exact append_ne_of_get_ne "Images/cover.".data
                  "Text/volume".data _ _ 0 (by decide) (by decide) (by decide)
              · show "Text/cover.xhtml" ≠ chapterHref v none
                apply str_ne_of_data_ne
                rw [chapterHref_none_data]
                exact lit_ne_append "Text/cover.xhtml" "Text/volume" _ 5
                  (by decide) (by decide) (by decide)
        · rcases List.mem_map.mp himg with ⟨fe, _hfe, rfl⟩
          show ("Images/" ++ fe.1) ≠ chapterHref v none
          apply str_ne_of_data_ne
          rw [strData_append, chapterHref_none_data]
          exact append_ne_of_get_ne "Images/".data "Text/volume".data _ _ 0
            (by decide) (by decide) (by decide)
      · rcases List.mem_map.mp hcss with ⟨ce, _hce, rfl⟩
        show ("Styles/" ++ styleFileName ce.1) ≠ chapterHref v none
        apply str_ne_of_data_ne
        rw [strData_append, chapterHref_none_data]
        exact append_ne_of_get_ne "Styles/".data "Text/volume".data _ _ 0
          (by decide) (by decide) (by decide)
    · rcases List.mem_map.mp hmap with ⟨pe, _hpe, rfl⟩
      show ("Styles/" ++ pe.1) ≠ chapterHref v none
      apply str_ne_of_data_ne
      rw [strData_append, chapterHref_none_data]
      exact append_ne_of_get_ne "Styles/".data "Text/volume".data _ _ 0
        (by decide) (by decide) (by decide)
  · rcases List.mem_flatMap.mp hvol with ⟨e, _he, hin⟩
    rw [volManifestItems] at hin
    rcases List.mem_append.mp hin with hpage | hch
    · rcases hcv : e.2.createVolumePage with _ | _
      · rw [hcv] at hpage
        simp at hpage
      · rw [hcv, if_pos rfl] at hpage
        simp only [List.mem_singleton] at hpage
        subst hpage
        show volumeIndexHref e.1 ≠ chapterHref v none
        exact volumeIndexHref_ne_chapterHref_none e.1 v
    · rcases List.mem_map.mp hch with ⟨ce, _hce, rfl⟩
      show chapterHref e.1 (some ce.1) ≠ chapterHref v none
      exact chapterHref_some_ne_none e.1 ce.1 v

end EpubModel

namespace EpubModel

/-- C8: a volume with no chapters breaks save().  With
`createVolumePage = true` (and `alwaysShowVolumeTitle = false`) the legacy
TOC renderer dereferences the missing sole chapter and throws the runtime
type error, so `save` produces no archive; with `createVolumePage = false`
the empty volume instead yields a flat TOC entry linking to the
`..._chapterundefined.xhtml` file name, which contains "undefined" and
matches the href of no manifest item. -/
theorem empty_volume_behavior
    (st : EpubState) (v : Nat) (vol : Volume)
    (hempty : vol.chapters = [])
    (hasvt : vol.alwaysShowVolumeTitle = false) :
    (vol.createVolumePage = true → (v, vol) ∈ sortByKey st.volumes →
      generateTocNcx st = Except.error JsError.typeError ∧
      save st = Except.error JsError.typeError) ∧
    (vol.createVolumePage = false → sortByKey st.volumes = [(v, vol)] →
      generateTocNcx st = Except.ok
        ((if st.coverBuffer.isSome then
            [(⟨tLabel st "cover", "Text/cover.xhtml", []⟩ : NavEntry)]
          else []) ++
          [⟨vol.title, chapterHref v none, []⟩])) ∧
    containsSeq "undefined".data (chapterHref v none).data = true ∧
    ∀ item ∈ (generateContentOpf st).1, item.href ≠ chapterHref v none := by
  refine ⟨?_, ?_, ?_, ?_⟩
  · intro hcvp hmem
    have herr : ncxVolEntry v vol = Except.error JsError.typeError :=
      ncxVolEntry_empty_cvp v vol hempty hasvt hcvp
    have hmapm := mapM_error_of (sortByKey st.volumes)
      (fun e => ncxVolEntry e.1 e.2) (v, vol) hmem herr
    have htoc : generateTocNcx st = Except.error JsError.typeError := by
      rw [generateTocNcx, hmapm]
      rfl
    refine ⟨htoc, ?_⟩
    rw [save, htoc]
    rfl
  · intro hcvp hsv
    have hok : ncxVolEntry v vol = Except.ok ⟨vol.title, chapterHref v none, []⟩ :=
      ncxVolEntry_empty_flat v vol hempty hasvt hcvp
    have hall : ∀ x ∈ [(v, vol)], (fun (e : Nat × Volume) =>
        ncxVolEntry e.1 e.2) x = Except.ok
          ((fun (e : Nat × Volume) =>
            (⟨e.2.title, chapterHref e.1 none, []⟩ : NavEntry)) x) := by
      intro x hx
      have hx1 : x = (v, vol) := List.mem_singleton.mp hx
      subst hx1
      exact hok
    have hmapm := mapM_ok_of [(v, vol)] _ _ hall
    rw [generateTocNcx, hsv, hmapm]
    rfl
  · rw [chapterHref_none_data]
    apply containsSeq_append
    apply containsSeq_append
    decide
  · exact chapterHref_none_notin_manifest st v

end EpubModel

namespace EpubModel

/-- An empty volume that asks for a volume page. -/
def c8VolA : Volume := ⟨"V", false, true, "text", []⟩

/-- An empty volume without a volume page. -/
def c8VolB : Volume := ⟨"V", false, false, "text", []⟩

def c8StateA : EpubState := ⟨[], [(0, c8VolA)], [], [], [], [], none, none⟩

def c8StateB : EpubState := ⟨[], [(0, c8VolB)], [], [], [], [], none, none⟩

theorem empty_volume_behavior_witness :
    save c8StateA = Except.error JsError.typeError ∧
    generateTocNcx c8StateB =
      Except.ok [⟨"V", chapterHref 0 none, []⟩] := by
  constructor
  · exact ((empty_volume_behavior c8StateA 0 c8VolA rfl rfl).1 rfl
      (by decide)).2
  · exact (empty_volume_behavior c8StateB 0 c8VolB rfl rfl).2.1 rfl (by decide)

end EpubModel

namespace EpubModel

/-! ### C10: insertion-time normalization via the JSON-string unescape -/

/-- Whether a node is plain character data. -/
def isTextNode : CNode → Bool
  | CNode.text _ => true
  | _ => false

def c10State : EpubState :=
  ⟨[], [(0, ⟨"Vol", false, false, "text", []⟩)], [], [], [], [], none, none⟩

def c10Net : Network := fun _ => none

/-- C10: markup content with no stylesheet links and no images is still
changed by insertion-time normalization: `_processCSSLinksInContent` JSON-
unescapes the whole content first, so the two raw characters `\` `n` become
a newline, and `addChapter` stores the changed text. -/
theorem unescape_normalization :
    (scanNodes ("a\\nb" : String).data).all isTextNode = true ∧
    processCSSLinksInContent c10State "a\\nb" = "a\nb" ∧
    ("a\nb" : String) ≠ "a\\nb" ∧
    mget (addChapter c10Net c10State 0 0 "T" "a\\nb" "html" false []
        none).volumes 0 =
      some ⟨"Vol", false, false, "text",
        [(0, ⟨"T", "a\nb", "html", false, [], none⟩)]⟩ := by
  refine ⟨?_, ?_, ?_, ?_⟩
  · decide
  · decide
  · decide
  · decide

end EpubModel
